import Mathlib

/-!
Verification development for the error-propagation / HTTP-response-translation
pipeline of go-krill-utils (packages errors and response).

Go strings are modelled as lists of unicode scalar values (`Str`); the Go
source only ever manipulates valid UTF-8 strings in this pipeline, for which
this representation is faithful.  The pieces of the Go standard library the
pipeline depends on (strings.Split, strings.ReplaceAll, strings.TrimSpace,
strings.TrimPrefix/TrimSuffix, and the encoding/json marshaller and
unmarshaller) are modelled explicitly below.
-/

set_option maxRecDepth 4000
set_option linter.dupNamespace false
set_option linter.unnecessarySeqFocus false

abbrev Str := List Char

def strOf (s : String) : Str := s.toList

/-- Code points accepted by Go's unicode.IsSpace (the Unicode White_Space
property, which strings.TrimSpace trims on both ends). -/
def goIsSpace (c : Char) : Bool :=
  let n := c.toNat
  (0x09 ≤ n && n ≤ 0x0D) || n == 0x20 || n == 0x85 || n == 0xA0 ||
  n == 0x1680 || (0x2000 ≤ n && n ≤ 0x200A) || n == 0x2028 || n == 0x2029 ||
  n == 0x202F || n == 0x205F || n == 0x3000

def trimLeftSpace : Str → Str
  | [] => []
  | c :: rest => if goIsSpace c then trimLeftSpace rest else c :: rest

/-- Model of strings.TrimSpace: drop leading and trailing white space. -/
def goTrimSpace (s : Str) : Str :=
  ((trimLeftSpace (trimLeftSpace s).reverse)).reverse

/-- If pat is a prefix of s, return the remainder of s after it. -/
def stripPrefixOpt : Str → Str → Option Str
  | [], s => some s
  | _ :: _, [] => none
  | p :: ps, c :: cs => if p = c then stripPrefixOpt ps cs else none

/-- Model of strings.TrimPrefix. -/
def goTrimPrefix (s pre : Str) : Str :=
  match stripPrefixOpt pre s with
  | some r => r
  | none => s

/-- Model of strings.TrimSuffix. -/
def goTrimSuffix (s suf : Str) : Str :=
  match stripPrefixOpt suf.reverse s.reverse with
  | some r => r.reverse
  | none => s

/-- Worker for goSplit.  The fuel argument only forces termination; one unit
is spent per input character, so fuel = length of the input suffices for any
non-empty separator. -/
def goSplitAux (sep : Str) : Nat → Str → Str → List Str
  | _, [], acc => [acc.reverse]
  | 0, s, acc => [acc.reverse ++ s]
  | fuel + 1, c :: rest, acc =>
    match stripPrefixOpt sep (c :: rest) with
    | some tail => acc.reverse :: goSplitAux sep fuel tail []
    | none => goSplitAux sep fuel rest (c :: acc)

/-- Model of strings.Split for a non-empty separator (every separator used in
this repository is a non-empty literal). -/
def goSplit (s sep : Str) : List Str := goSplitAux sep s.length s []

/-- Worker for goReplaceAll, with the same fuel convention as goSplitAux. -/
def goReplaceAllAux (old new : Str) : Nat → Str → Str
  | _, [] => []
  | 0, s => s
  | fuel + 1, c :: rest =>
    match stripPrefixOpt old (c :: rest) with
    | some tail => new ++ goReplaceAllAux old new fuel tail
    | none => c :: goReplaceAllAux old new fuel rest

/-- Model of strings.ReplaceAll for a non-empty pattern (the patterns used in
this repository are a double quote and key-plus-colon, both non-empty). -/
def goReplaceAll (s old new : Str) : Str := goReplaceAllAux old new s.length s

/-!
Model of the encoding/json values and of the marshalling/unmarshalling used
by the pipeline.  JSON numbers are restricted to integers: every number this
repository ever serialises is integral, and the restriction is visible only
as a (model-level) parse error on fractional literals.
-/

mutual
inductive Json where
  | null
  | boolean (b : Bool)
  | num (n : Int)
  | str (s : Str)
  | arr (elems : JsonElems)
  | obj (fields : JsonFields)
inductive JsonElems where
  | nil
  | cons (hd : Json) (tl : JsonElems)
inductive JsonFields where
  | nil
  | cons (key : Str) (val : Json) (tl : JsonFields)
end

deriving instance DecidableEq for Json, JsonElems, JsonFields

def jelems : List Json → JsonElems
  | [] => .nil
  | v :: t => .cons v (jelems t)

def jfields : List (Str × Json) → JsonFields
  | [] => .nil
  | (k, v) :: t => .cons k v (jfields t)

def appendElem : JsonElems → Json → JsonElems
  | .nil, v => .cons v .nil
  | .cons h t, v => .cons h (appendElem t v)

def appendField : JsonFields → Str → Json → JsonFields
  | .nil, k, v => .cons k v .nil
  | .cons k0 v0 t, k, v => .cons k0 v0 (appendField t k v)

def hexDigitChar (n : Nat) : Char :=
  if n < 10 then Char.ofNat (48 + n) else Char.ofNat (87 + n)

def digitChar (n : Nat) : Char := Char.ofNat (48 + n)

/-- One character of Go's JSON string encoder (encoding/json with its default
HTML escaping): quotes, backslashes, \n, \r, \t get two-character escapes,
other control characters and the HTML characters get \u00xx, U+2028/U+2029
get their own six-character escapes, everything else is passed through. -/
def escapeChar (c : Char) : Str :=
  if c = '"' then ['\\', '"']
  else if c = '\\' then ['\\', '\\']
  else if c = '\n' then ['\\', 'n']
  else if c = '\r' then ['\\', 'r']
  else if c = '\t' then ['\\', 't']
  else if c.toNat < 0x20 then
    ['\\', 'u', '0', '0', hexDigitChar (c.toNat / 16), hexDigitChar (c.toNat % 16)]
  else if c = '<' || c = '>' || c = '&' then
    ['\\', 'u', '0', '0', hexDigitChar (c.toNat / 16), hexDigitChar (c.toNat % 16)]
  else if c.toNat = 0x2028 || c.toNat = 0x2029 then
    ['\\', 'u', '2', '0', '2', hexDigitChar (c.toNat % 16)]
  else [c]

def escapeString : Str → Str
  | [] => []
  | c :: rest => escapeChar c ++ escapeString rest

/-- Worker for natToDec; the fuel argument only forces termination and any
fuel greater than the number suffices. -/
def natToDecAux : Nat → Nat → Str → Str
  | 0, _, acc => acc
  | fuel + 1, n, acc =>
    if n < 10 then digitChar n :: acc
    else natToDecAux fuel (n / 10) (digitChar (n % 10) :: acc)

def natToDec (n : Nat) : Str := natToDecAux (n + 1) n []

/-- Decimal form of an integer, as produced by Go's JSON encoder for
integral values. -/
def intToDec (i : Int) : Str :=
  if i < 0 then '-' :: natToDec i.natAbs else natToDec i.natAbs

mutual
def serializeJson : Json → Str
  | .null => ['n', 'u', 'l', 'l']
  | .boolean true => ['t', 'r', 'u', 'e']
  | .boolean false => ['f', 'a', 'l', 's', 'e']
  | .num n => intToDec n
  | .str s => '"' :: (escapeString s ++ ['"'])
  | .arr xs => '[' :: (serializeElems xs ++ [']'])
  | .obj fs => '{' :: (serializeFields fs ++ ['}'])
def serializeElems : JsonElems → Str
  | .nil => []
  | .cons h .nil => serializeJson h
  | .cons h (.cons h2 t) => serializeJson h ++ ',' :: serializeElems (.cons h2 t)
def serializeFields : JsonFields → Str
  | .nil => []
  | .cons k v .nil => '"' :: (escapeString k ++ '"' :: ':' :: serializeJson v)
  | .cons k v (.cons k2 v2 t) =>
    ('"' :: (escapeString k ++ '"' :: ':' :: serializeJson v)) ++
      ',' :: serializeFields (.cons k2 v2 t)
end

/-- Key order used when Go marshals a decoded map[string]interface{}: keys
are sorted bytewise ascending (for valid UTF-8, scalar-value order equals
byte order). -/
def lexLe : Str → Str → Bool
  | [], _ => true
  | _ :: _, [] => false
  | a :: as, b :: bs => if a = b then lexLe as bs else decide (a < b)

/-- Sorted insertion for object fields; an equal key replaces the previous
entry, matching the last-value-wins behaviour of decoding into a Go map. -/
def insertField (k : Str) (v : Json) : JsonFields → JsonFields
  | .nil => .cons k v .nil
  | .cons k2 v2 t =>
    if k = k2 then .cons k v t
    else if lexLe k k2 then .cons k v (.cons k2 v2 t)
    else .cons k2 v2 (insertField k v t)

mutual
def sortJson : Json → Json
  | .null => .null
  | .boolean b => .boolean b
  | .num n => .num n
  | .str s => .str s
  | .arr xs => .arr (sortElems xs)
  | .obj fs => .obj (sortFieldsInto .nil fs)
def sortElems : JsonElems → JsonElems
  | .nil => .nil
  | .cons h t => .cons (sortJson h) (sortElems t)
def sortFieldsInto : JsonFields → JsonFields → JsonFields
  | acc, .nil => acc
  | acc, .cons k v t => sortFieldsInto (insertField k (sortJson v) acc) t
end

instance {ε α : Type} [DecidableEq ε] [DecidableEq α] : DecidableEq (Except ε α)
  | .ok x, .ok y =>
    if h : x = y then .isTrue (h ▸ rfl) else .isFalse (fun hc => h (Except.ok.inj hc))
  | .error x, .error y =>
    if h : x = y then .isTrue (h ▸ rfl) else .isFalse (fun hc => h (Except.error.inj hc))
  | .ok _, .error _ => .isFalse (fun hc => Except.noConfusion hc)
  | .error _, .ok _ => .isFalse (fun hc => Except.noConfusion hc)

/-- Whitespace accepted between tokens by Go's JSON scanner. -/
def jsonIsSpace (c : Char) : Bool := c = ' ' || c = '\t' || c = '\r' || c = '\n'

def skipWS : Str → Str
  | [] => []
  | c :: rest => if jsonIsSpace c then skipWS rest else c :: rest

def eofErr : Str := strOf "unexpected end of JSON input"

/-- Go's %q rendering of a rune, as it appears inside scanner error
messages; modelled exactly for printable ASCII (the only characters the
theorems below evaluate it on) and best-effort elsewhere. -/
def goQuoteChar (c : Char) : Str :=
  if c = '\'' then ['\'', '\\', '\'', '\'']
  else if c = '\\' then ['\'', '\\', '\\', '\'']
  else if 0x20 ≤ c.toNat && c.toNat < 0x7F then ['\'', c, '\'']
  else if c.toNat < 0x100 then
    ['\'', '\\', 'x', hexDigitChar (c.toNat / 16), hexDigitChar (c.toNat % 16), '\'']
  else
    ['\'', '\\', 'u', hexDigitChar (c.toNat / 4096 % 16), hexDigitChar (c.toNat / 256 % 16),
     hexDigitChar (c.toNat / 16 % 16), hexDigitChar (c.toNat % 16), '\'']

def invalidCharErr (c : Char) (ctx : String) : Str :=
  strOf "invalid character " ++ goQuoteChar c ++ strOf " " ++ strOf ctx

def parseHexDigit (c : Char) : Option Nat :=
  if '0' ≤ c && c ≤ '9' then some (c.toNat - 48)
  else if 'a' ≤ c && c ≤ 'f' then some (c.toNat - 87)
  else if 'A' ≤ c && c ≤ 'F' then some (c.toNat - 55)
  else none

/-- Body of a JSON string literal, after the opening quote.  Unpaired
surrogate escapes decode to U+FFFD as in Go (surrogate pairs are not
modelled; nothing in this repository emits them). -/
def parseStringBody : Str → Except Str (Str × Str)
  | [] => .error eofErr
  | '"' :: rest => .ok ([], rest)
  | '\\' :: esc =>
    match esc with
    | [] => .error eofErr
    | 'u' :: h1 :: h2 :: h3 :: h4 :: rest =>
      match parseHexDigit h1, parseHexDigit h2, parseHexDigit h3, parseHexDigit h4 with
      | some a, some b, some c, some d =>
        let n := ((a * 16 + b) * 16 + c) * 16 + d
        let ch := if 0xD800 ≤ n && n ≤ 0xDFFF then Char.ofNat 0xFFFD else Char.ofNat n
        match parseStringBody rest with
        | .ok (s, r) => .ok (ch :: s, r)
        | .error e => .error e
      | _, _, _, _ => .error (invalidCharErr h1 "in \\u hexadecimal character escape")
    | e :: rest =>
      let c? : Option Char :=
        if e = '"' then some '"'
        else if e = '\\' then some '\\'
        else if e = '/' then some '/'
        else if e = 'b' then some (Char.ofNat 8)
        else if e = 'f' then some (Char.ofNat 12)
        else if e = 'n' then some '\n'
        else if e = 'r' then some '\r'
        else if e = 't' then some '\t'
        else none
      match c? with
      | some ch =>
        match parseStringBody rest with
        | .ok (s, r) => .ok (ch :: s, r)
        | .error e2 => .error e2
      | none => .error (invalidCharErr e "in string escape code")
  | c :: rest =>
    if c.toNat < 0x20 then .error (invalidCharErr c "in string literal")
    else
      match parseStringBody rest with
      | .ok (s, r) => .ok (c :: s, r)
      | .error e => .error e

def isDigitCh (c : Char) : Bool := '0' ≤ c && c ≤ '9'

def takeDigits : Str → (Str × Str)
  | [] => ([], [])
  | c :: rest =>
    if isDigitCh c then
      let p := takeDigits rest
      (c :: p.1, p.2)
    else ([], c :: rest)

def digitsVal (ds : Str) : Nat := ds.foldl (fun a c => a * 10 + (c.toNat - 48)) 0

/-- JSON number literal, restricted to the integral literals this
repository produces; fractional or exponent forms, which Go would accept,
are reported as a model-level error instead. -/
def parseNumber (s : Str) : Except Str (Json × Str) :=
  let neg : Bool := s.headD ' ' = '-'
  let s1 : Str := if s.headD ' ' = '-' then s.tail else s
  match takeDigits s1 with
  | ([], []) => .error eofErr
  | ([], c :: _) => .error (invalidCharErr c "in numeric literal")
  | (ds, rest) =>
    if ds.length > 1 ∧ ds.headD '0' = '0' then
      .error (invalidCharErr (ds.headD '0') "after top-level value")
    else
      match rest with
      | '.' :: _ => .error (strOf "non-integral JSON number (outside model)")
      | 'e' :: _ => .error (strOf "non-integral JSON number (outside model)")
      | 'E' :: _ => .error (strOf "non-integral JSON number (outside model)")
      | _ =>
        let v : Int := digitsVal ds
        .ok (.num (if neg then -v else v), rest)

/-- Parser modes: a value, the members of an object after its opening
brace, or the elements of an array after its opening bracket. -/
inductive PMode where
  | val
  | members (acc : JsonFields)
  | elems (acc : JsonElems)

def depthErr : Str := strOf "out of parser fuel (outside model)"

/-- Recursive-descent parser for the modelled JSON grammar, mirroring Go's
scanner including its error messages.  Fuel is consumed once per object or
array opening and once per member/element, so any fuel exceeding the input
length is sufficient. -/
def parseF : Nat → PMode → Str → Except Str (Json × Str)
  | fuel, .val, s =>
    match s with
    | [] => .error eofErr
    | '{' :: rest =>
      (match fuel with
       | 0 => .error depthErr
       | f + 1 =>
         match skipWS rest with
         | '}' :: rest2 => .ok (.obj .nil, rest2)
         | rest2 => parseF f (.members .nil) rest2)
    | '[' :: rest =>
      (match fuel with
       | 0 => .error depthErr
       | f + 1 =>
         match skipWS rest with
         | ']' :: rest2 => .ok (.arr .nil, rest2)
         | rest2 => parseF f (.elems .nil) rest2)
    | '"' :: rest =>
      (match parseStringBody rest with
       | .ok (str, r) => .ok (.str str, r)
       | .error e => .error e)
    | c :: rest =>
      if c = 't' then
        match stripPrefixOpt (strOf "rue") rest with
        | some r => .ok (.boolean true, r)
        | none => .error (invalidCharErr c "in literal true (expecting 'r')")
      else if c = 'f' then
        match stripPrefixOpt (strOf "alse") rest with
        | some r => .ok (.boolean false, r)
        | none => .error (invalidCharErr c "in literal false (expecting 'a')")
      else if c = 'n' then
        match stripPrefixOpt (strOf "ull") rest with
        | some r => .ok (.null, r)
        | none => .error (invalidCharErr c "in literal null (expecting 'u')")
      else if c = '-' || isDigitCh c then parseNumber (c :: rest)
      else .error (invalidCharErr c "looking for beginning of value")
  | fuel, .members acc, s =>
    match s with
    | [] => .error eofErr
    | '"' :: rest =>
      (match parseStringBody rest with
       | .error e => .error e
       | .ok (k, rest1) =>
         match skipWS rest1 with
         | ':' :: rest2 =>
           (match fuel with
            | 0 => .error depthErr
            | f + 1 =>
              match parseF f .val (skipWS rest2) with
              | .error e => .error e
              | .ok (v, rest3) =>
                match skipWS rest3 with
                | ',' :: rest4 => parseF f (.members (appendField acc k v)) (skipWS rest4)
                | '}' :: rest4 => .ok (.obj (appendField acc k v), rest4)
                | [] => .error eofErr
                | c :: _ => .error (invalidCharErr c "after object key:value pair"))
         | [] => .error eofErr
         | c :: _ => .error (invalidCharErr c "after object key"))
    | c :: _ => .error (invalidCharErr c "looking for beginning of object key string")
  | fuel, .elems acc, s =>
    match fuel with
    | 0 => .error depthErr
    | f + 1 =>
      match parseF f .val s with
      | .error e => .error e
      | .ok (v, rest1) =>
        match skipWS rest1 with
        | ',' :: rest2 => parseF f (.elems (appendElem acc v)) (skipWS rest2)
        | ']' :: rest2 => .ok (.arr (appendElem acc v), rest2)
        | [] => .error eofErr
        | c :: _ => .error (invalidCharErr c "after array element")

/-- Model of json.Unmarshal's scan of a complete input into a JSON value:
parse one value and insist nothing but whitespace follows. -/
def jsonUnmarshal (s : Str) : Except Str Json :=
  match parseF (s.length + 1) .val (skipWS s) with
  | .error e => .error e
  | .ok (v, rest) =>
    match skipWS rest with
    | [] => .ok v
    | c :: _ => .error (invalidCharErr c "after top-level value")

/-!
Embedding of the errors package (src/errors/errors.go and the factory
file): the Error record, its rendering to a JSON string, and the Factory
constructors.  The structured logger is an I/O collaborator and is not
modelled; Submit's only non-logging effect is returning the record.
-/

namespace goerrors

/-- A plain Go error value as created by errors.New: a pointer to a struct
whose only field (the message) is unexported and which has no custom JSON
marshalling, so json.Marshal renders it as an empty object. -/
inductive GoErr where
  | errorString (msg : Str)
deriving DecidableEq

def GoErr.message : GoErr → Str
  | .errorString m => m

def marshalGoErr : GoErr → Json
  | .errorString _ => .obj .nil

def KindValidation : Str := strOf "ValidationError"
def KindInternal : Str := strOf "InternalError"
def KindNotFound : Str := strOf "NotFoundError"
def KindPrecondition : Str := strOf "ConditionError"
def KindPermission : Str := strOf "PermissionError"

def CodeInternal : Int := 1
def CodeNotFound : Int := 2
def CodeInvalidArgument : Int := 3
def CodePreconditionFailed : Int := 4
def CodeNoPermission : Int := 5

/-- The errors.Error record.  Code is an int32 in Go; it is modelled as an
integer (no arithmetic is ever performed on it). -/
structure Error where
  Code : Int := 0
  ServiceName : Str := []
  Message : Str := []
  Destination : Str := []
  Kind : Str := []
  SublevelError : Option GoErr := none
  hideDetails : Bool := false
deriving DecidableEq

/-- The member list json.Marshal produces for an Error value: fields in
declared order with their tags code, service_name(omitempty),
message(omitempty), destination(omitempty), kind, details(omitempty); the
unexported hideDetails field is skipped by the marshaller. -/
def errFieldList (x : Error) : List (Str × Json) :=
  [(strOf "code", Json.num x.Code)] ++
  (if x.ServiceName = [] then [] else [(strOf "service_name", Json.str x.ServiceName)]) ++
  (if x.Message = [] then [] else [(strOf "message", Json.str x.Message)]) ++
  (if x.Destination = [] then [] else [(strOf "destination", Json.str x.Destination)]) ++
  [(strOf "kind", Json.str x.Kind)] ++
  (match x.SublevelError with
   | none => []
   | some g => [(strOf "details", marshalGoErr g)])

/-- json.Marshal of an Error value, as a JSON object. -/
def errorFieldsJson (x : Error) : Json := .obj (jfields (errFieldList x))

/-- Error.String: build the output record with code, destination, kind and
message; add details, service name and destination (again) only when
hideDetails is unset; then json.Marshal it. -/
def Error.String (e : Error) : Str :=
  let out : Error := { Code := e.Code, Destination := e.Destination, Kind := e.Kind,
                       Message := e.Message }
  let out :=
    if !e.hideDetails then
      { out with SublevelError := e.SublevelError, ServiceName := e.ServiceName,
                 Destination := e.Destination }
    else out
  serializeJson (errorFieldsJson out)

/-- ServiceError keeps the record; the log attributes and logger callback
are I/O collaborators outside the model. -/
structure ServiceError where
  err : Error
deriving DecidableEq

def ServiceError.WithCode (s : ServiceError) (code : Int) : ServiceError :=
  { s with err := { s.err with Code := code } }

/-- Submit emits one log line (not modelled) and returns the record as the
API error; its string form is Error.String. -/
def ServiceError.Submit (s : ServiceError) : Error := s.err

structure Factory where
  hideMessageDetails : Bool := false
  serviceName : Str := []
deriving DecidableEq

def Factory.InvalidArgument (f : Factory) (err : GoErr) : ServiceError :=
  { err := { hideDetails := f.hideMessageDetails, Code := CodeInvalidArgument,
             Kind := KindValidation, ServiceName := f.serviceName,
             Message := strOf "request validation failed", SublevelError := some err } }

def Factory.FailedPrecondition (f : Factory) (message : Str) : ServiceError :=
  { err := { hideDetails := f.hideMessageDetails, Code := CodePreconditionFailed,
             Kind := KindPrecondition, ServiceName := f.serviceName,
             Message := strOf "failed precondition",
             SublevelError := some (.errorString message) } }

def Factory.NotFound (f : Factory) : ServiceError :=
  { err := { hideDetails := f.hideMessageDetails, Code := CodeNotFound,
             Kind := KindNotFound, ServiceName := f.serviceName,
             Message := strOf "not found" } }

def Factory.Internal (f : Factory) (err : GoErr) : ServiceError :=
  { err := { hideDetails := f.hideMessageDetails, Code := CodeInternal,
             Kind := KindInternal, ServiceName := f.serviceName,
             Message := strOf "got an internal error", SublevelError := some err } }

def Factory.PermissionDenied (f : Factory) : ServiceError :=
  { err := { hideDetails := f.hideMessageDetails, Code := CodeNoPermission,
             Kind := KindPermission, ServiceName := f.serviceName,
             Message := strOf "no permission to access " ++ f.serviceName } }

end goerrors

/-!
Embedding of the response package: the wire serviceError record and its
decoding, the HTTP status classification, the validation-detail parser,
and the runtime response writers.
-/

namespace response

def invalidJsonBodyMsg : Str := strOf "invalid json body"
def invalidValueFieldJsonMsg : Str := strOf "invalid value for json field"
def internalServerErrorMsg : Str := strOf "internal service error"

structure Field where
  Field : Str := []
  Message : Str := []
  Location : Str := []
deriving DecidableEq

structure responseError where
  Code : Int := 0
  Source : Str := []
  Message : Str := []
  Details : Str := []
  Destination : Str := []
  Fields : List Field := []
deriving DecidableEq

structure responseErrorOptions where
  Code : Int := 0
  Source : Str := []
  Message : Str := []
  Details : Str := []
  Destination : Str := []
  Fields : List Field := []
deriving DecidableEq

def newResponseError (options : responseErrorOptions) : responseError :=
  { Code := options.Code, Source := options.Source, Message := options.Message,
    Details := options.Details, Destination := options.Destination,
    Fields := options.Fields }

/-- json.Marshal of a Field (all three members tagged omitempty). -/
def fieldJson (f : Field) : Json :=
  .obj (jfields (
    (if f.Field = [] then [] else [(strOf "field", Json.str f.Field)]) ++
    (if f.Message = [] then [] else [(strOf "message", Json.str f.Message)]) ++
    (if f.Location = [] then [] else [(strOf "location", Json.str f.Location)])))

/-- json.Marshal of a responseError (every member tagged omitempty; a nil
or empty Fields slice is omitted). -/
def responseErrorJson (r : responseError) : Json :=
  .obj (jfields (
    (if r.Code = 0 then [] else [(strOf "code", Json.num r.Code)]) ++
    (if r.Source = [] then [] else [(strOf "source", Json.str r.Source)]) ++
    (if r.Message = [] then [] else [(strOf "message", Json.str r.Message)]) ++
    (if r.Details = [] then [] else [(strOf "details", Json.str r.Details)]) ++
    (if r.Destination = [] then [] else [(strOf "destination", Json.str r.Destination)]) ++
    (if r.Fields = [] then []
     else [(strOf "fields", Json.arr (jelems (r.Fields.map fieldJson)))])))

/-- The on-wire serviceError record; Code is an int32 in Go, SublevelError
an interface{} holding whatever JSON value sat under "details". -/
structure serviceError where
  Code : Int := 0
  ServiceName : Str := []
  Message : Str := []
  Destination : Str := []
  Kind : Str := []
  SublevelError : Option Json := none
deriving DecidableEq

def int32Min : Int := -2147483648
def int32Max : Int := 2147483647

/-- State of decoding a JSON object into a serviceError: Go's decoder keeps
the first error it meets but keeps decoding the remaining fields. -/
structure DecState where
  e : serviceError := {}
  firstErr : Option Str := none

def setDecErr (st : DecState) (msg : Str) : DecState :=
  match st.firstErr with
  | some _ => st
  | none => { st with firstErr := some msg }

/-- Decode one object member into the serviceError under construction.
Unknown keys are ignored; a JSON null leaves the field untouched; a
mismatched type records an UnmarshalTypeError (message text approximated).
Go would additionally match keys case-insensitively; only exact tag
matches are modelled (nothing in scope relies on the fallback). -/
def decodeField (st : DecState) (k : Str) (v : Json) : DecState :=
  if k = strOf "code" then
    match v with
    | .null => st
    | .num n =>
      if int32Min ≤ n ∧ n ≤ int32Max then { st with e := { st.e with Code := n } }
      else setDecErr st (strOf "json: cannot unmarshal number: overflows int32")
    | _ => setDecErr st (strOf "json: cannot unmarshal value into field code of type int32")
  else if k = strOf "service_name" then
    match v with
    | .null => st
    | .str s => { st with e := { st.e with ServiceName := s } }
    | _ => setDecErr st (strOf "json: cannot unmarshal value into field service_name of type string")
  else if k = strOf "message" then
    match v with
    | .null => st
    | .str s => { st with e := { st.e with Message := s } }
    | _ => setDecErr st (strOf "json: cannot unmarshal value into field message of type string")
  else if k = strOf "destination" then
    match v with
    | .null => st
    | .str s => { st with e := { st.e with Destination := s } }
    | _ => setDecErr st (strOf "json: cannot unmarshal value into field destination of type string")
  else if k = strOf "kind" then
    match v with
    | .null => st
    | .str s => { st with e := { st.e with Kind := s } }
    | _ => setDecErr st (strOf "json: cannot unmarshal value into field kind of type string")
  else if k = strOf "details" then
    match v with
    | .null => st
    | v => { st with e := { st.e with SublevelError := some v } }
  else st

def decodeFields : DecState → JsonFields → DecState
  | st, .nil => st
  | st, .cons k v t => decodeFields (decodeField st k v) t

/-- serviceErrorFromString: json.Unmarshal of the string into a
serviceError, propagating the decode error when the input is not valid
JSON for that shape. -/
def serviceErrorFromString (s : Str) : Except Str serviceError :=
  match jsonUnmarshal s with
  | .error e => .error e
  | .ok (.obj fs) =>
    let st := decodeFields {} fs
    (match st.firstErr with
     | some e => .error e
     | none => .ok st.e)
  | .ok _ => .error (strOf "json: cannot unmarshal value into Go value of type response.serviceError")

def knownServiceErrors : List Str :=
  [strOf "ValidationError", strOf "InternalError", strOf "NotFoundError",
   strOf "ConditionError", strOf "PermissionError"]

def serviceError.IsKnownError (s : serviceError) : Bool :=
  knownServiceErrors.contains s.Kind

def serviceError.ResponseCode (s : serviceError) : Int :=
  if s.Kind = strOf "ValidationError" then 400
  else if s.Kind = strOf "NotFoundError" then 404
  else if s.Kind = strOf "ConditionError" then 412
  else if s.Kind = strOf "PermissionError" then 401
  else 500

def quoteCommaQuote : Str := ['"', ',', '"']

/-- getFieldNameAndLocation: split the trimmed key on "@"; with no "@" the
original (untrimmed) key is the field and the location defaults to body. -/
def getFieldNameAndLocation (data : Str) : Str × Str :=
  match goSplit (goTrimSpace data) (strOf "@") with
  | [_] => (data, strOf "body")
  | x :: y :: _ => (goTrimSpace x, goTrimSpace y)
  | [] => (data, strOf "body")

def formatMessage (s v : Str) : Str := goReplaceAll v (s ++ [':']) []

/-- newValidationErrorFields: split the flattened validator message on the
literal quote-comma-quote delimiter, strip quotes, split each segment on
":"; two parts give a field directly, more than two re-derive the message
with formatMessage over the whole original input, anything else emits
nothing. -/
def newValidationErrorFields (err : Str) : List Field :=
  (goSplit err quoteCommaQuote).foldl
    (fun errs re =>
      let re2 := goReplaceAll re ['"'] []
      let msg := goSplit (goTrimSpace re2) (strOf ":")
      match msg with
      | [k, m] =>
        let fl := getFieldNameAndLocation k
        errs ++ [{ Field := fl.1, Message := goTrimSuffix (goTrimSpace m) (strOf "."),
                   Location := fl.2 }]
      | k :: _ :: _ :: _ =>
        let fl := getFieldNameAndLocation k
        errs ++ [{ Field := fl.1,
                   Message := goTrimSuffix (goTrimSpace (formatMessage k err)) (strOf "."),
                   Location := fl.2 }]
      | _ => errs)
    []

/-- string(b)[1:len(b)-1] applied to the marshalled details value; Go would
panic when len(b) < 2, which cannot happen for a marshalled JSON value
(the shortest forms have two characters or more except single digits,
which never reach this call wrapped in a one-character form). -/
def stripFirstLast (s : Str) : Str := (s.drop 1).dropLast

/-- ToResponseError: copy the scalar members; for a ValidationError with a
present details value, re-marshal it (map key order: sorted) and feed the
quote-stripped string to newValidationErrorFields. -/
def serviceError.ToResponseError (s : serviceError) : responseError :=
  let opt : responseErrorOptions :=
    { Code := s.Code, Source := s.ServiceName, Message := s.Message,
      Destination := s.Destination }
  let opt :=
    match s.SublevelError with
    | none => opt
    | some sub =>
      if s.Kind = strOf "ValidationError" then
        { opt with Fields :=
            newValidationErrorFields (stripFirstLast (serializeJson (sortJson sub))) }
      else opt
  newResponseError opt

end response

namespace response

def customHeaderPrefix : Str := strOf "handler-attribute-"
def customResponseCode : Str := strOf "handler-response-code"

/-- A value stored in fasthttp's request-scoped user-value store.  Only
integers (the response-code override) and strings (custom headers) occur
in this pipeline. -/
inductive UVal where
  | int (n : Int)
  | str (s : Str)
deriving DecidableEq

structure FResponse where
  statusCode : Option Int := none
  contentType : Option Str := none
  body : Option Str := none
  headers : List (Str × Str) := []
deriving DecidableEq

structure FasthttpCtx where
  requestContentType : Str := []
  userValues : List (Str × UVal) := []
  response : FResponse := {}
deriving DecidableEq

def FasthttpCtx.userValue (c : FasthttpCtx) (k : Str) : Option UVal :=
  (c.userValues.find? (fun p => p.1 == k)).map (fun p => p.2)

def FasthttpCtx.setUserValue (c : FasthttpCtx) (k : Str) (v : UVal) : FasthttpCtx :=
  if c.userValues.any (fun p => p.1 == k) then
    { c with userValues := c.userValues.map (fun p => if p.1 == k then (k, v) else p) }
  else { c with userValues := c.userValues ++ [(k, v)] }

/-- Header.Set: replace an existing header of the same key or append
(fasthttp's key canonicalisation is not modelled). -/
def setHeader (hs : List (Str × Str)) (k v : Str) : List (Str × Str) :=
  if hs.any (fun p => p.1 == k) then hs.map (fun p => if p.1 == k then (k, v) else p)
  else hs ++ [(k, v)]

/-- The echo context records the Content-Type header and the status/body
handed to ctx.JSON.  echo re-encodes the already-marshalled bytes; the
stored body models the bytes passed in, not echo's own serialisation of
them.  ctx.JSON's own write error is modelled as always nil. -/
structure EchoCtx where
  headers : List (Str × Str) := []
  written : Option (Int × Str) := none
deriving DecidableEq

inductive RCtx where
  | fast (c : FasthttpCtx)
  | echo (c : EchoCtx)
deriving DecidableEq

structure Response where
  customCode : Int := 0
  serviceName : Str := []
  contentType : Str := []
  ctx : RCtx
deriving DecidableEq

structure Options where
  ServiceName : Str := []

def NewFromFasthttp (ctx : FasthttpCtx) (options : Options) : Response :=
  { serviceName := options.ServiceName, contentType := ctx.requestContentType,
    ctx := .fast ctx }

def NewFromEcho (ctx : EchoCtx) (options : Options) : Response :=
  { serviceName := options.ServiceName, contentType := strOf "application/json",
    ctx := .echo ctx }

def Response.SetContentType (r : Response) (contentType : Str) : Response :=
  { r with contentType := contentType }

/-- Copy every user value whose key carries the custom-header prefix into
the response headers, with the prefix trimmed.  Go type-asserts
value.(string) and would panic on a non-string value; no non-string value
ever carries the prefix in this pipeline, and such entries are skipped. -/
def setFasthttpCustomHeaders (c : FasthttpCtx) : FasthttpCtx :=
  let hs := c.userValues.foldl
    (fun hs p =>
      match p with
      | (k, .str v) =>
        (match stripPrefixOpt customHeaderPrefix k with
         | some trimmed => setHeader hs trimmed v
         | none => hs)
      | (_, .int _) => hs)
    c.response.headers
  { c with response := { c.response with headers := hs } }

/-- forwardOutput: marshal the body (json.Marshal cannot fail for the
bodies this package produces), then write through the runtime adapter.  On
fasthttp: propagate custom headers, let a request-scoped response-code
override replace the status, then set status, content type and raw body.
On echo: a non-zero customCode overrides the status, the Content-Type
header is set and the body handed to ctx.JSON. -/
def forwardOutput (r : Response) (statusCode : Int) (data : Json) : Option Str × Response :=
  let out := serializeJson data
  match r.ctx with
  | .fast c =>
    let c := setFasthttpCustomHeaders c
    let status :=
      match c.userValue customResponseCode with
      | some (.int n) => n
      | _ => statusCode
    let c := { c with response :=
      { c.response with statusCode := some status, contentType := some r.contentType,
                        body := some out } }
    (none, { r with ctx := .fast c })
  | .echo c =>
    let status := if r.customCode ≠ 0 then r.customCode else statusCode
    let c := { c with headers := setHeader c.headers (strOf "Content-Type") r.contentType }
    let c := { c with written := some (status, out) }
    (none, { r with ctx := .echo c })

/-- ForwardAuthenticationError.  In the Go source the short variable
declaration ferror, err := serviceErrorFromString(err.Error()) reassigns
the parameter err, so the decode-failure branch reports the decode error's
message as details, and past that point err is nil. -/
def ForwardAuthenticationError (r : Response) (errMsg : Str) : Option Str × Response :=
  match serviceErrorFromString errMsg with
  | .error e =>
    forwardOutput r 500 (responseErrorJson (newResponseError
      { Message := internalServerErrorMsg, Details := e }))
  | .ok ferror =>
    if ferror.IsKnownError then
      forwardOutput r ferror.ResponseCode (responseErrorJson ferror.ToResponseError)
    else (none, r)

/-- ForwardError.  The same reassignment of err applies; after a successful
decode err is nil, so status.FromError(nil) returns (nil, true) and
(*Status)(nil).Message() is "", which means the gRPC branch always fires
for a decoded-but-unknown record and the jsonError and final fallback
branches of the Go source are unreachable. -/
def ForwardError (r : Response) (errMsg : Str) : Option Str × Response :=
  match serviceErrorFromString errMsg with
  | .error e =>
    forwardOutput r 500 (responseErrorJson (newResponseError
      { Message := internalServerErrorMsg, Details := e }))
  | .ok ferror =>
    if ferror.IsKnownError then
      forwardOutput r ferror.ResponseCode (responseErrorJson ferror.ToResponseError)
    else
      forwardOutput r 500 (responseErrorJson (newResponseError
        { Message := internalServerErrorMsg, Details := [] }))

/-- A success payload, optionally implementing the Responser capability
whose HttpResponse() substitute is marshalled instead of the payload. -/
inductive SuccessData where
  | plain (d : Json)
  | withResponser (d : Json) (httpResponse : Json)

def ForwardSuccess (r : Response) (data : SuccessData) : Option Str × Response :=
  let d := match data with
    | .plain d => d
    | .withResponser _ h => h
  forwardOutput r 200 d

/-- SetResponseCode on a fasthttp request context: store the override in
the user-value map. -/
def SetResponseCodeFast (c : FasthttpCtx) (code : Int) : FasthttpCtx :=
  c.setUserValue customResponseCode (.int code)

/-- SetResponseCode on a plain context carrying a Response (the echo path):
set the customCode field of the retrieved Response. -/
def SetResponseCodeEcho (r : Response) (code : Int) : Response :=
  { r with customCode := code }

/-- The status code recorded by the runtime adapter, if any. -/
def writtenStatus (p : Option Str × Response) : Option Int :=
  match p.2.ctx with
  | .fast c => c.response.statusCode
  | .echo c => c.written.map (fun q => q.1)

/-- The body recorded by the runtime adapter, if any. -/
def writtenBody (p : Option Str × Response) : Option Str :=
  match p.2.ctx with
  | .fast c => c.response.body
  | .echo c => c.written.map (fun q => q.2)

end response

/-!
Shared sample values and small helper lemmas used by the claim theorems.
-/

def sampleFastCtx : response.FasthttpCtx := {}

def sampleOptions : response.Options := { ServiceName := strOf "svc" }

/-- The input string of claim C3 (no quote-comma-quote delimiter occurs in
it, so the splitter returns it whole). -/
def c3Input : Str := strOf "field1: message one, field2@query: message two."

/-- The same field data in the delimited form the splitter actually cuts:
quote-comma-quote between the two per-field entries. -/
def c3QuotedInput : Str :=
  strOf "\"field1: message one\",\"field2@query: message two.\""

/-!
Claim theorems, one per claim of the frozen list.
-/

/-- Message rule the code actually implements for segments with more than
two colon-parts (amended claim C4): delete every occurrence of "key:"
from the whole original input, trim, strip one trailing period. -/
def c4SpecMessage (key err : Str) : Str :=
  goTrimSuffix (goTrimSpace (goReplaceAll err (key ++ [':']) [])) (strOf ".")

def c4Input : Str := strOf "field: value must be > 10: check config"

/-- A two-segment input whose first segment has a three-part colon split:
formatMessage then runs over the whole input, so the emitted message
absorbs text of the second segment. -/
def c4MultiInput : Str := strOf "\"k: a: b\",\"k: y\""

/-- The first segment of c4MultiInput as the splitter produces it. -/
def c4Seg1 : Str := strOf "\"k: a: b\""

/-- Per-segment outcome of newValidationErrorFields: the FieldError a
single segment contributes, if any (used to state the loop's best-effort
behaviour). -/
def segmentField (err re : Str) : Option response.Field :=
  let re2 := goReplaceAll re ['"'] []
  let msg := goSplit (goTrimSpace re2) (strOf ":")
  match msg with
  | [k, m] =>
    let fl := response.getFieldNameAndLocation k
    some { Field := fl.1, Message := goTrimSuffix (goTrimSpace m) (strOf "."),
           Location := fl.2 }
  | k :: _ :: _ :: _ =>
    let fl := response.getFieldNameAndLocation k
    some { Field := fl.1,
           Message := goTrimSuffix (goTrimSpace (response.formatMessage k err)) (strOf "."),
           Location := fl.2 }
  | _ => none

def c10Input : Str := strOf "\x7b\"kind\":\"MysteryError\",\"code\":9\x7d"

def c5OverrideCtx : response.FasthttpCtx :=
  response.SetResponseCodeFast sampleFastCtx 418

def c5BoomErr : Str :=
  strOf "invalid character " ++ goQuoteChar 'b' ++ strOf " looking for beginning of value"

def c1ExpectedBody : Str :=
  strOf "\x7b\"message\":\"internal service error\",\"details\":\"invalid character " ++
  goQuoteChar 'b' ++ strOf " looking for beginning of value\"\x7d"

def c1ClaimedBody : Str :=
  strOf "\x7b\"message\":\"internal service error\",\"details\":\"boom\"\x7d"

/-- The serialized form of one object member, as emitted inside
serializeFields. -/
def memberChunk (k : Str) (v : Json) : Str :=
  '"' :: (escapeString k ++ '"' :: ':' :: serializeJson v)

/-- Membership of a key/value pair in a JsonFields list. -/
inductive FieldsMem : Str → Json → JsonFields → Prop
  | head (k : Str) (v : Json) (t : JsonFields) : FieldsMem k v (.cons k v t)
  | tail (k : Str) (v : Json) (k2 : Str) (v2 : Json) (t : JsonFields) :
      FieldsMem k v t → FieldsMem k v (.cons k2 v2 t)

def c2Record : goerrors.Error :=
  { Code := 1, ServiceName := strOf "svc", Message := strOf "m",
    Destination := strOf "dst", Kind := goerrors.KindInternal,
    SublevelError := some (.errorString (strOf "secret")), hideDetails := true }

/-- The only value shapes Error.String puts inside the rendered object:
integers, strings, and the empty object a marshalled plain error yields. -/
inductive FlatVal : Json → Prop
  | num (n : Int) : FlatVal (.num n)
  | str (s : Str) : FlatVal (.str s)
  | emptyObj : FlatVal (.obj .nil)

/-- Restriction on what may follow a serialized value so that number
parsing stops exactly at its end; a comma or closing brace satisfies it. -/
def NumStop (rest : Str) : Prop :=
  ∀ c, rest.head? = some c → (isDigitCh c = false ∧ c ≠ '.' ∧ c ≠ 'e' ∧ c ≠ 'E')

def appendFs : JsonFields → JsonFields → JsonFields
  | .nil, fs => fs
  | .cons k v t, fs => .cons k v (appendFs t fs)

def c6Sample : goerrors.Error :=
  { Code := 7, ServiceName := strOf "svc", Message := strOf "m",
    Destination := strOf "d", Kind := goerrors.KindValidation,
    SublevelError := some (.errorString (strOf "x")), hideDetails := false }

/-- C3 counterexample: on the exact input of the claim the parser does NOT
yield the two claimed FieldError entries (the input contains no
quote-comma-quote delimiter, so it is treated as a single segment). -/
theorem c3_counterexample :
    response.newValidationErrorFields c3Input ≠
      [{ Field := strOf "field1", Location := strOf "body", Message := strOf "message one" },
       { Field := strOf "field2", Location := strOf "query", Message := strOf "message two" }] := by
  decide

/-- C3 amended: the undelimited input of the claim parses as one single
segment whose colon-split has three parts, producing exactly one
FieldError for field1 with the whole remaining text as message; the
two-entry result of the claim arises for the quote-delimited form of the
same data. -/
theorem c3_validation_parser_results :
    response.newValidationErrorFields c3Input =
      [{ Field := strOf "field1", Location := strOf "body",
         Message := strOf "message one, field2@query: message two" }] ∧
    response.newValidationErrorFields c3QuotedInput =
      [{ Field := strOf "field1", Location := strOf "body", Message := strOf "message one" },
       { Field := strOf "field2", Location := strOf "query", Message := strOf "message two" }] := by
  constructor
  · decide
  · decide

/-- C4 counterexample: formatMessage removes EVERY occurrence of "key:"
from the WHOLE input (strings.ReplaceAll), not just the leading
"key:" prefix of the segment, so a message in which "key:" re-occurs is
mangled: for the input a: b a: c the emitted message is b  c, not the
claimed prefix-stripped b a: c. -/
theorem c4_counterexample :
    response.newValidationErrorFields (strOf "a: b a: c") ≠
      [{ Field := strOf "a", Message := strOf "b a: c", Location := strOf "body" }] := by
  decide

theorem segmentField_foldl_step (err : Str) (errs : List response.Field) (re : Str) :
    (let re2 := goReplaceAll re ['"'] []
     let msg := goSplit (goTrimSpace re2) (strOf ":")
     match msg with
     | [k, m] =>
       let fl := response.getFieldNameAndLocation k
       errs ++ [{ Field := fl.1, Message := goTrimSuffix (goTrimSpace m) (strOf "."),
                  Location := fl.2 }]
     | k :: _ :: _ :: _ =>
       let fl := response.getFieldNameAndLocation k
       errs ++ [{ Field := fl.1,
                  Message := goTrimSuffix (goTrimSpace (response.formatMessage k err)) (strOf "."),
                  Location := fl.2 }]
     | _ => errs) =
    (match segmentField err re with
     | some f => errs ++ [f]
     | none => errs) := by
  rcases h : goSplit (goTrimSpace (goReplaceAll re ['"'] [])) (strOf ":") with
    _ | ⟨k, _ | ⟨m, _ | ⟨x, rest⟩⟩⟩ <;>
    simp only [segmentField, h]

theorem newValidationErrorFields_foldl_filterMap (err : Str) (l : List Str)
    (init : List response.Field) :
    l.foldl
      (fun errs re =>
        let re2 := goReplaceAll re ['"'] []
        let msg := goSplit (goTrimSpace re2) (strOf ":")
        match msg with
        | [k, m] =>
          let fl := response.getFieldNameAndLocation k
          errs ++ [{ Field := fl.1, Message := goTrimSuffix (goTrimSpace m) (strOf "."),
                     Location := fl.2 }]
        | k :: _ :: _ :: _ =>
          let fl := response.getFieldNameAndLocation k
          errs ++ [{ Field := fl.1,
                     Message := goTrimSuffix (goTrimSpace (response.formatMessage k err)) (strOf "."),
                     Location := fl.2 }]
        | _ => errs)
      init = init ++ l.filterMap (segmentField err) := by
  induction l generalizing init with
  | nil => simp
  | cons re t ih =>
    rw [List.foldl_cons, segmentField_foldl_step err init re]
    rcases h : segmentField err re with _ | f
    · simp only [List.filterMap_cons, h]
      exact ih init
    · simp only [List.filterMap_cons, h]
      rw [ih (init ++ [f])]
      simp

/-- C4 amended: whenever ANY segment of ANY input has a colon-split with
more than two parts, the loop emits for it a FieldError whose message is
c4SpecMessage k err: strings.ReplaceAll deletes every occurrence of
"key:" from the WHOLE ORIGINAL INPUT (formatMessage receives err, not
the segment), then the result is trimmed and one trailing period
stripped; the overall output is the in-order filterMap of these
per-segment outcomes, so this describes every emitted entry. A message
containing colons is recovered in full only for a single-segment input
in which "key:" occurs just as the leading prefix. -/
theorem c4_colon_message (err re k r1 r2 : Str) (rest : List Str)
    (hsplit : goSplit (goTrimSpace (goReplaceAll re ['"'] [])) (strOf ":") =
      k :: r1 :: r2 :: rest) :
    segmentField err re =
      some { Field := (response.getFieldNameAndLocation k).1,
             Message := c4SpecMessage k err,
             Location := (response.getFieldNameAndLocation k).2 } ∧
    response.newValidationErrorFields err =
      (goSplit err response.quoteCommaQuote).filterMap (segmentField err) := by
  constructor
  · simp only [segmentField]
    rw [hsplit]
    simp [c4SpecMessage, response.formatMessage]
  · unfold response.newValidationErrorFields
    exact newValidationErrorFields_foldl_filterMap err _ []

/-- Witness for c4_colon_message on the two-segment input c4MultiInput:
the first segment's emitted message is ReplaceAll over the whole input
and so absorbs text of the second segment; on the single-segment claim
example the full colon-containing message is still recovered. -/
theorem c4_colon_message_witness :
    goSplit (goTrimSpace (goReplaceAll c4Seg1 ['"'] [])) (strOf ":") =
      [strOf "k", strOf " a", strOf " b"] ∧
    (segmentField c4MultiInput c4Seg1 =
      some { Field := (response.getFieldNameAndLocation (strOf "k")).1,
             Message := c4SpecMessage (strOf "k") c4MultiInput,
             Location := (response.getFieldNameAndLocation (strOf "k")).2 } ∧
     response.newValidationErrorFields c4MultiInput =
       (goSplit c4MultiInput response.quoteCommaQuote).filterMap
         (segmentField c4MultiInput)) ∧
    c4SpecMessage (strOf "k") c4MultiInput = strOf "\" a: b\",\" y\"" ∧
    response.newValidationErrorFields c4Input =
      [{ Field := strOf "field", Message := strOf "value must be > 10: check config",
         Location := strOf "body" }] :=
  ⟨by decide,
   c4_colon_message c4MultiInput c4Seg1 (strOf "k") (strOf " a") (strOf " b") []
     (by decide),
   by decide, by decide⟩

/-- C7: ResponseCode reads only the kind: records agreeing on Kind get the
same status, and the mapping is Validation to 400, NotFound to 404,
Condition to 412, Permission to 401, and 500 for InternalError and every
other kind value. -/
theorem c7_response_code_function_of_kind :
    (∀ s1 s2 : response.serviceError, s1.Kind = s2.Kind →
      s1.ResponseCode = s2.ResponseCode) ∧
    (∀ s : response.serviceError,
      (s.Kind = strOf "ValidationError" → s.ResponseCode = 400) ∧
      (s.Kind = strOf "NotFoundError" → s.ResponseCode = 404) ∧
      (s.Kind = strOf "ConditionError" → s.ResponseCode = 412) ∧
      (s.Kind = strOf "PermissionError" → s.ResponseCode = 401) ∧
      (s.Kind ≠ strOf "ValidationError" → s.Kind ≠ strOf "NotFoundError" →
       s.Kind ≠ strOf "ConditionError" → s.Kind ≠ strOf "PermissionError" →
       s.ResponseCode = 500)) := by
  constructor
  · intro s1 s2 h
    unfold response.serviceError.ResponseCode
    rw [h]
  · intro s
    refine ⟨?_, ?_, ?_, ?_, ?_⟩
    · intro h; unfold response.serviceError.ResponseCode; rw [h]; decide
    · intro h; unfold response.serviceError.ResponseCode; rw [h]; decide
    · intro h; unfold response.serviceError.ResponseCode; rw [h]; decide
    · intro h; unfold response.serviceError.ResponseCode; rw [h]; decide
    · intro h1 h2 h3 h4
      unfold response.serviceError.ResponseCode
      rw [if_neg h1, if_neg h2, if_neg h3, if_neg h4]

/-- Witness for c7_response_code_function_of_kind: two records sharing a
kind but nothing else, the concrete mappings, and InternalError falling in
the every-other-kind bucket. -/
theorem c7_response_code_function_of_kind_witness :
    ({ Kind := strOf "ValidationError", Code := 1 } : response.serviceError).ResponseCode =
      ({ Kind := strOf "ValidationError", Code := 2,
         Message := strOf "m" } : response.serviceError).ResponseCode ∧
    ({ Kind := strOf "NotFoundError" } : response.serviceError).ResponseCode = 404 ∧
    ({ Kind := strOf "InternalError" } : response.serviceError).ResponseCode = 500 := by
  refine ⟨?_, ?_, ?_⟩
  · exact c7_response_code_function_of_kind.1 _ _ rfl
  · exact ((c7_response_code_function_of_kind.2 _).2.1) rfl
  · exact ((c7_response_code_function_of_kind.2 _).2.2.2.2) (by decide) (by decide)
      (by decide) (by decide)

/-- C8: newValidationErrorFields is total best-effort translation: its
output is exactly the in-order filterMap of the per-segment outcomes (so
segments that fail to parse contribute nothing and do not disturb the
rest), a segment whose colon-split has fewer than two parts contributes
nothing, and if no segment parses the output is empty. -/
theorem c8_best_effort_parsing (err : Str) :
    response.newValidationErrorFields err =
      (goSplit err response.quoteCommaQuote).filterMap (segmentField err) ∧
    (∀ re, (goSplit (goTrimSpace (goReplaceAll re ['"'] [])) (strOf ":")).length < 2 →
      segmentField err re = none) ∧
    ((∀ re ∈ goSplit err response.quoteCommaQuote, segmentField err re = none) →
      response.newValidationErrorFields err = []) := by
  have hmain : response.newValidationErrorFields err =
      (goSplit err response.quoteCommaQuote).filterMap (segmentField err) := by
    unfold response.newValidationErrorFields
    exact newValidationErrorFields_foldl_filterMap err _ []
  refine ⟨hmain, ?_, ?_⟩
  · intro re hlen
    rcases h : goSplit (goTrimSpace (goReplaceAll re ['"'] [])) (strOf ":") with
      _ | ⟨k, _ | ⟨m, _ | ⟨x, rest⟩⟩⟩
    · simp only [segmentField, h]
    · simp only [segmentField, h]
    · rw [h] at hlen; simp at hlen
    · rw [h] at hlen; simp at hlen; omega
  · intro hall
    rw [hmain]
    exact List.filterMap_eq_nil_iff.mpr hall

/-- Witness for c8_best_effort_parsing: a mixed input where the malformed
middle segment is dropped and the surrounding segments survive in order,
a colon-free segment yielding nothing, and an all-malformed input
yielding the empty list. -/
theorem c8_best_effort_parsing_witness :
    response.newValidationErrorFields (strOf "\"a: x\",\"nocolon\",\"b@query: y\"") =
      (goSplit (strOf "\"a: x\",\"nocolon\",\"b@query: y\"") response.quoteCommaQuote).filterMap
        (segmentField (strOf "\"a: x\",\"nocolon\",\"b@query: y\"")) ∧
    segmentField (strOf "abc") (strOf "no colon here") = none ∧
    response.newValidationErrorFields (strOf "junk") = [] := by
  refine ⟨(c8_best_effort_parsing _).1, ?_, ?_⟩
  · exact (c8_best_effort_parsing (strOf "abc")).2.1 _ (by decide)
  · exact (c8_best_effort_parsing (strOf "junk")).2.2 (by decide)

/-- C10: when the error string decodes into the serviceError shape but the
kind is none of the five known tags, ForwardAuthenticationError writes
nothing (the runtime context is untouched) and returns nil. -/
theorem c10_unknown_kind_no_write (r : response.Response) (s : Str)
    (se : response.serviceError)
    (hdec : response.serviceErrorFromString s = .ok se)
    (hk : se.IsKnownError = false) :
    response.ForwardAuthenticationError r s = (none, r) := by
  unfold response.ForwardAuthenticationError
  rw [hdec]
  simp [hk]

/-- Witness for c10_unknown_kind_no_write: a JSON error record with an
unrecognised kind decodes, is unknown, and passes through untouched. -/
theorem c10_unknown_kind_no_write_witness :
    response.serviceErrorFromString c10Input =
      .ok { Kind := strOf "MysteryError", Code := 9 } ∧
    response.serviceError.IsKnownError { Kind := strOf "MysteryError", Code := 9 } = false ∧
    response.ForwardAuthenticationError
      (response.NewFromFasthttp sampleFastCtx sampleOptions) c10Input =
      (none, response.NewFromFasthttp sampleFastCtx sampleOptions) :=
  ⟨by decide, by decide,
   c10_unknown_kind_no_write (response.NewFromFasthttp sampleFastCtx sampleOptions)
     c10Input { Kind := strOf "MysteryError", Code := 9 } (by decide) (by decide)⟩

/-- C5 counterexample: with a response-code override stored on the request
context, ForwardError on a non-JSON error does NOT write the allegedly
fixed decode-failure status 500; the override wins there too. -/
theorem c5_counterexample :
    response.writtenStatus
      (response.ForwardError (response.NewFromFasthttp c5OverrideCtx sampleOptions)
        (strOf "boom")) ≠ some 500 := by
  decide

/-- C5 amended: a response-code override set on the fasthttp request
context takes precedence over the status handed to forwardOutput on every
path: any direct forwardOutput call, ForwardSuccess's default 200, and
also the decode-failure 500 path of ForwardError (no path has a fixed
status). -/
theorem c5_override_takes_precedence (r : response.Response)
    (c : response.FasthttpCtx) (code : Int)
    (hctx : r.ctx = .fast c)
    (hov : c.userValue response.customResponseCode = some (.int code)) :
    (∀ statusCode data,
      response.writtenStatus (response.forwardOutput r statusCode data) = some code) ∧
    (∀ d, response.writtenStatus (response.ForwardSuccess r d) = some code) ∧
    (∀ s e, response.serviceErrorFromString s = .error e →
      response.writtenStatus (response.ForwardError r s) = some code) := by
  have hfw : ∀ statusCode data,
      response.writtenStatus (response.forwardOutput r statusCode data) = some code := by
    intro statusCode data
    unfold response.forwardOutput
    rw [hctx]
    have huv : (response.setFasthttpCustomHeaders c).userValue
        response.customResponseCode = some (.int code) := by
      unfold response.setFasthttpCustomHeaders response.FasthttpCtx.userValue at *
      exact hov
    simp only [huv]
    rfl
  refine ⟨hfw, ?_, ?_⟩
  · intro d
    unfold response.ForwardSuccess
    exact hfw 200 _
  · intro s e hdec
    unfold response.ForwardError
    rw [hdec]
    exact hfw 500 _

/-- Witness for c5_override_takes_precedence: override 418 wins over a
direct 500, over ForwardSuccess's 200, and on the decode-failure path. -/
theorem c5_override_takes_precedence_witness :
    (response.NewFromFasthttp c5OverrideCtx sampleOptions).ctx = .fast c5OverrideCtx ∧
    c5OverrideCtx.userValue response.customResponseCode = some (.int 418) ∧
    response.writtenStatus
      (response.forwardOutput (response.NewFromFasthttp c5OverrideCtx sampleOptions) 500 .null) =
      some 418 ∧
    response.writtenStatus
      (response.ForwardSuccess (response.NewFromFasthttp c5OverrideCtx sampleOptions)
        (.plain .null)) = some 418 ∧
    response.writtenStatus
      (response.ForwardError (response.NewFromFasthttp c5OverrideCtx sampleOptions)
        (strOf "boom")) = some 418 := by
  refine ⟨rfl, by decide, ?_, ?_, ?_⟩
  · exact (c5_override_takes_precedence _ c5OverrideCtx 418 rfl (by decide)).1 500 .null
  · exact (c5_override_takes_precedence _ c5OverrideCtx 418 rfl (by decide)).2.1 _
  · exact (c5_override_takes_precedence _ c5OverrideCtx 418 rfl (by decide)).2.2
      (strOf "boom") c5BoomErr (by decide)

/-- C1 evidence: at the failing input (an error whose string form is the
non-JSON "boom"), ForwardError writes 500 with message internal service
error, but the details field holds the JSON decode error's message (the
short variable declaration in the Go source reassigned err), not the
original message "boom" required by the claim. -/
theorem c1_decode_failure_details_divergence :
    response.ForwardError (response.NewFromFasthttp sampleFastCtx sampleOptions)
      (strOf "boom") =
      (none, { serviceName := strOf "svc", contentType := [],
               ctx := .fast { response :=
                 { statusCode := some 500, contentType := some [],
                   body := some c1ExpectedBody } } }) ∧
    c1ExpectedBody ≠ c1ClaimedBody := by
  constructor
  · decide
  · decide

theorem serializeFields_cons (k : Str) (v : Json) (t : JsonFields) :
    serializeFields (.cons k v t) =
      memberChunk k v ++
        (match t with
         | .nil => []
         | .cons _ _ _ => ',' :: serializeFields t) := by
  cases t with
  | nil => simp [serializeFields, memberChunk]
  | cons k2 v2 t2 => simp [serializeFields, memberChunk]

theorem memberChunk_infix_serializeFields (k : Str) (v : Json) (fs : JsonFields)
    (h : FieldsMem k v fs) : memberChunk k v <:+: serializeFields fs := by
  induction h with
  | head t =>
    rw [serializeFields_cons]
    exact ⟨[], _, rfl⟩
  | tail k2 v2 t hmem ih =>
    rw [serializeFields_cons]
    cases t with
    | nil => cases hmem
    | cons k3 v3 t3 =>
      refine ih.trans ⟨memberChunk k2 v2 ++ [','], [], ?_⟩
      simp

theorem serializeFields_infix_obj (fs : JsonFields) :
    serializeFields fs <:+: serializeJson (.obj fs) :=
  ⟨['{'], ['}'], by simp [serializeJson]⟩

theorem memberChunk_infix_obj (k : Str) (v : Json) (fs : JsonFields)
    (h : FieldsMem k v fs) : memberChunk k v <:+: serializeJson (.obj fs) :=
  (memberChunk_infix_serializeFields k v fs h).trans (serializeFields_infix_obj fs)

theorem escapeString_infix_memberChunk (k d : Str) :
    escapeString d <:+: memberChunk k (.str d) := by
  refine ⟨'"' :: (escapeString k ++ ['"', ':', '"']), ['"'], ?_⟩
  simp [memberChunk, serializeJson]

/-- C2 counterexample: with hideDetails set, the rendered string still
contains the destination; Error.String copies Destination into the output
record unconditionally, before the hideDetails check. -/
theorem c2_counterexample :
    strOf "\"destination\":\"dst\"" <:+: goerrors.Error.String c2Record := by
  decide

/-- C2 amended: with hideDetails set, rendering is independent of the
serviceName and detail fields (their content never reaches the output),
but the destination is still emitted: its escaped text occurs in the
rendered string whenever it is non-empty. -/
theorem c2_hidden_details (e : goerrors.Error) (h : e.hideDetails = true) :
    goerrors.Error.String e =
      goerrors.Error.String { e with ServiceName := [], SublevelError := none } ∧
    (e.Destination ≠ [] →
      escapeString e.Destination <:+: goerrors.Error.String e) := by
  have hout : goerrors.Error.String e = serializeJson (goerrors.errorFieldsJson
      { Code := e.Code, Destination := e.Destination, Kind := e.Kind,
        Message := e.Message }) := by
    unfold goerrors.Error.String
    simp [h]
  constructor
  · rw [hout]
    unfold goerrors.Error.String
    simp [h]
  · intro hd
    rw [hout]
    unfold goerrors.errorFieldsJson goerrors.errFieldList
    by_cases hm : e.Message = []
    · simp only [hm, if_neg hd]
      simp [jfields]
      exact (escapeString_infix_memberChunk _ _).trans (memberChunk_infix_obj _ _ _
        (FieldsMem.tail _ _ _ _ _ (FieldsMem.head _ _ _)))
    · simp only [if_neg hm, if_neg hd]
      simp [jfields]
      exact (escapeString_infix_memberChunk _ _).trans (memberChunk_infix_obj _ _ _
        (FieldsMem.tail _ _ _ _ _ (FieldsMem.tail _ _ _ _ _ (FieldsMem.head _ _ _))))

/-- Witness for c2_hidden_details at a concrete hidden record: the service
name and detail do not influence the rendering, and the destination text
still shows up. -/
theorem c2_hidden_details_witness :
    c2Record.hideDetails = true ∧
    goerrors.Error.String c2Record =
      goerrors.Error.String { c2Record with ServiceName := [], SublevelError := none } ∧
    (c2Record.Destination ≠ [] →
      escapeString c2Record.Destination <:+: goerrors.Error.String c2Record) :=
  ⟨rfl, (c2_hidden_details c2Record rfl).1, (c2_hidden_details c2Record rfl).2⟩

theorem fieldsMem_last (l : List (Str × Json)) (k : Str) (v : Json) :
    FieldsMem k v (jfields (l ++ [(k, v)])) := by
  induction l with
  | nil => exact .head _ _ _
  | cons p t ih =>
    rcases p with ⟨a, b⟩
    exact .tail _ _ _ _ _ ih

theorem errFieldList_details (x : goerrors.Error) (g : goerrors.GoErr)
    (hx : x.SublevelError = some g) :
    goerrors.errFieldList x =
      ([(strOf "code", Json.num x.Code)] ++
       (if x.ServiceName = [] then [] else [(strOf "service_name", Json.str x.ServiceName)]) ++
       (if x.Message = [] then [] else [(strOf "message", Json.str x.Message)]) ++
       (if x.Destination = [] then [] else [(strOf "destination", Json.str x.Destination)]) ++
       [(strOf "kind", Json.str x.Kind)]) ++
      [(strOf "details", goerrors.marshalGoErr g)] := by
  unfold goerrors.errFieldList
  rw [hx]

/-- C9: a ServiceError built by the Factory around a plain errors.New
value renders its details field as the empty JSON object even with
hideMessageDetails unset: the rendering is independent of the embedded
error's message (for both InvalidArgument causes and the
FailedPrecondition message), and the literal text "details":{} occurs in
the output. -/
theorem c9_plain_error_detail_empty (f : goerrors.Factory) (m1 m2 : Str)
    (h : f.hideMessageDetails = false) :
    (f.InvalidArgument (.errorString m1)).err.String =
      (f.InvalidArgument (.errorString m2)).err.String ∧
    (f.FailedPrecondition m1).err.String = (f.FailedPrecondition m2).err.String ∧
    strOf "\"details\":\x7b\x7d" <:+: (f.InvalidArgument (.errorString m1)).err.String := by
  have hrenderIA : ∀ m : Str, (f.InvalidArgument (.errorString m)).err.String =
      serializeJson (goerrors.errorFieldsJson
        { Code := goerrors.CodeInvalidArgument, ServiceName := f.serviceName,
          Message := strOf "request validation failed", Kind := goerrors.KindValidation,
          SublevelError := some (.errorString m) }) := by
    intro m
    unfold goerrors.Error.String
    simp [goerrors.Factory.InvalidArgument, h]
  have hrenderFP : ∀ m : Str, (f.FailedPrecondition m).err.String =
      serializeJson (goerrors.errorFieldsJson
        { Code := goerrors.CodePreconditionFailed, ServiceName := f.serviceName,
          Message := strOf "failed precondition", Kind := goerrors.KindPrecondition,
          SublevelError := some (.errorString m) }) := by
    intro m
    unfold goerrors.Error.String
    simp [goerrors.Factory.FailedPrecondition, h]
  refine ⟨?_, ?_, ?_⟩
  · rw [hrenderIA m1, hrenderIA m2]
    simp [goerrors.errorFieldsJson, goerrors.errFieldList, goerrors.marshalGoErr]
  · rw [hrenderFP m1, hrenderFP m2]
    simp [goerrors.errorFieldsJson, goerrors.errFieldList, goerrors.marshalGoErr]
  · rw [hrenderIA m1]
    have hmq : memberChunk (strOf "details") (.obj .nil) = strOf "\"details\":\x7b\x7d" := by
      decide
    rw [← hmq]
    unfold goerrors.errorFieldsJson
    refine memberChunk_infix_obj _ _ _ ?_
    rw [errFieldList_details _ (.errorString m1) rfl]
    exact fieldsMem_last _ _ _

/-- Witness for c9_plain_error_detail_empty at a concrete factory. -/
theorem c9_plain_error_detail_empty_witness :
    ({ hideMessageDetails := false,
       serviceName := strOf "svc" } : goerrors.Factory).hideMessageDetails = false ∧
    (({ hideMessageDetails := false, serviceName := strOf "svc" } : goerrors.Factory).InvalidArgument
        (.errorString (strOf "password must not be empty"))).err.String =
      (({ hideMessageDetails := false, serviceName := strOf "svc" } : goerrors.Factory).InvalidArgument
        (.errorString (strOf "other"))).err.String ∧
    strOf "\"details\":\x7b\x7d" <:+:
      (({ hideMessageDetails := false, serviceName := strOf "svc" } : goerrors.Factory).InvalidArgument
        (.errorString (strOf "password must not be empty"))).err.String :=
  ⟨rfl,
   (c9_plain_error_detail_empty _ (strOf "password must not be empty") (strOf "other") rfl).1,
   (c9_plain_error_detail_empty _ (strOf "password must not be empty") (strOf "other") rfl).2.2⟩

/-!
Round-trip machinery for claim C6: parsing back what the serializer
produced, for the flat object shapes Error.String emits.
-/

theorem parseHexDigit_hexDigitChar (k : Nat) (h : k < 16) :
    parseHexDigit (hexDigitChar k) = some k := by
  interval_cases k <;> decide

theorem digitChar_toNat (n : Nat) (h : n < 10) : (digitChar n).toNat = 48 + n := by
  interval_cases n <;> decide

theorem isDigitCh_digitChar (n : Nat) (h : n < 10) : isDigitCh (digitChar n) = true := by
  interval_cases n <;> decide

theorem digitChar_eq_zero_iff (n : Nat) (h : n < 10) : digitChar n = '0' ↔ n = 0 := by
  interval_cases n <;> decide

theorem digitsVal_append_one (ds : Str) (c : Char) :
    digitsVal (ds ++ [c]) = digitsVal ds * 10 + (c.toNat - 48) := by
  unfold digitsVal
  rw [List.foldl_append]
  rfl

theorem natToDecAux_spec (n : Nat) : ∀ (fuel : Nat) (acc : Str), n < fuel →
    ∃ ds : Str, natToDecAux fuel n acc = ds ++ acc ∧ ds ≠ [] ∧
      (∀ c ∈ ds, isDigitCh c = true) ∧ digitsVal ds = n ∧
      (ds.head? = some '0' → n = 0) := by
  induction n using Nat.strong_induction_on with
  | _ n ih =>
    intro fuel acc hf
    match fuel, hf with
    | f + 1, hf =>
      by_cases hn : n < 10
      · refine ⟨[digitChar n], by simp [natToDecAux, hn], by simp, ?_, ?_, ?_⟩
        · intro c hc
          simp at hc
          subst hc
          exact isDigitCh_digitChar n hn
        · unfold digitsVal
          simp [digitChar_toNat n hn]
        · intro hh
          simp at hh
          exact (digitChar_eq_zero_iff n hn).mp hh
      · have hrec : natToDecAux (f + 1) n acc =
            natToDecAux f (n / 10) (digitChar (n % 10) :: acc) := by
          simp [natToDecAux, hn]
        have hdivlt : n / 10 < n := Nat.div_lt_self (by omega) (by omega)
        have hdivf : n / 10 < f := by omega
        obtain ⟨ds', h1, h2, h3, h4, h5⟩ := ih (n / 10) hdivlt f (digitChar (n % 10) :: acc) hdivf
        refine ⟨ds' ++ [digitChar (n % 10)], ?_, by simp, ?_, ?_, ?_⟩
        · rw [hrec, h1]
          simp
        · intro c hc
          rcases List.mem_append.mp hc with hc | hc
          · exact h3 c hc
          · simp at hc
            subst hc
            exact isDigitCh_digitChar _ (Nat.mod_lt n (by omega))
        · rw [digitsVal_append_one, h4, digitChar_toNat _ (Nat.mod_lt n (by omega))]
          omega
        · intro hh
          rcases ds' with _ | ⟨a, ds''⟩
          · exact absurd rfl h2
          · simp at hh
            have := h5 (by simp [hh])
            omega

theorem natToDec_spec (n : Nat) :
    natToDec n ≠ [] ∧ (∀ c ∈ natToDec n, isDigitCh c = true) ∧
      digitsVal (natToDec n) = n ∧ ((natToDec n).head? = some '0' → n = 0) := by
  obtain ⟨ds, h1, h2, h3, h4, h5⟩ := natToDecAux_spec n (n + 1) [] (Nat.lt_succ_self n)
  unfold natToDec
  rw [h1]
  simp only [List.append_nil]
  exact ⟨h2, h3, h4, h5⟩

theorem takeDigits_spec (ds rest : Str) (hds : ∀ c ∈ ds, isDigitCh c = true)
    (hrest : ∀ c, rest.head? = some c → isDigitCh c = false) :
    takeDigits (ds ++ rest) = (ds, rest) := by
  induction ds with
  | nil =>
    cases rest with
    | nil => rfl
    | cons c r =>
      have := hrest c rfl
      simp [takeDigits, this]
  | cons c t ih =>
    have hc := hds c (by simp)
    simp only [List.cons_append, takeDigits, hc, if_true, List.append_eq]
    rw [ih (fun c hc2 => hds c (by simp [hc2]))]

theorem parseNumber_natToDec (n : Nat) (rest : Str)
    (hrest : ∀ c, rest.head? = some c →
      (isDigitCh c = false ∧ c ≠ '.' ∧ c ≠ 'e' ∧ c ≠ 'E')) :
    parseNumber (natToDec n ++ rest) = .ok (.num (n : Int), rest) := by
  obtain ⟨hne, hdig, hval, hzero⟩ := natToDec_spec n
  rcases hnd : natToDec n with _ | ⟨d, ds⟩
  · exact absurd hnd hne
  · rw [hnd] at hdig hval hzero
    have hd : isDigitCh d = true := hdig d (by simp)
    have hdneg : ¬((d :: (ds ++ rest)).headD ' ' = '-') := by
      intro h
      simp at h
      rw [h] at hd
      exact absurd hd (by decide)
    have htake : takeDigits ((d :: ds) ++ rest) = (d :: ds, rest) := by
      refine takeDigits_spec (d :: ds) rest hdig ?_
      intro c hc
      exact (hrest c hc).1
    unfold parseNumber
    simp only [List.cons_append]
    rw [if_neg hdneg]
    have htake2 : takeDigits (d :: (ds ++ rest)) = (d :: ds, rest) := htake
    rw [htake2]
    have hlz : ¬((d :: ds).length > 1 ∧ (d :: ds).headD '0' = '0') := by
      rintro ⟨hlen, hhd⟩
      simp at hhd
      have h0 := hzero (by simp [hhd])
      rw [h0] at hnd
      have hz : natToDec 0 = ['0'] := by decide
      rw [hz] at hnd
      injection hnd with _ h2
      rw [← h2] at hlen
      simp at hlen
    split
    · next heq => simp at heq
    · next heq => simp at heq
    rename_i ds1 rest1 hf1 hf2 heq
    injection heq with e1 e2
    subst e1
    subst e2
    rw [if_neg hlz]
    have hvi : (digitsVal (d :: ds) : Int) = (n : Int) := by rw [hval]
    have hd2 : d ≠ '-' := by
      intro h
      exact hdneg (by simp [h])
    cases rest with
    | nil => simp [hvi, hd2]
    | cons c r =>
      obtain ⟨hc1, hc2, hc3, hc4⟩ := hrest c rfl
      split
      · next heq => injection heq with h1 _; exact absurd h1 hc2
      · next heq => injection heq with h1 _; exact absurd h1 hc3
      · next heq => injection heq with h1 _; exact absurd h1 hc4
      · simp [hvi, hd2]

theorem parseNumber_intToDec (i : Int) (rest : Str)
    (hrest : ∀ c, rest.head? = some c →
      (isDigitCh c = false ∧ c ≠ '.' ∧ c ≠ 'e' ∧ c ≠ 'E')) :
    parseNumber (intToDec i ++ rest) = .ok (.num i, rest) := by
  unfold intToDec
  by_cases hi : i < 0
  · rw [if_pos hi]
    obtain ⟨hne, hdig, hval, hzero⟩ := natToDec_spec i.natAbs
    have hnabs : 1 ≤ i.natAbs := by omega
    rcases hnd : natToDec i.natAbs with _ | ⟨d0, ds0⟩
    · exact absurd hnd hne
    · rw [hnd] at hdig hval hzero
      have htake : takeDigits ((d0 :: ds0) ++ rest) = (d0 :: ds0, rest) := by
        refine takeDigits_spec (d0 :: ds0) rest hdig ?_
        intro c hc
        exact (hrest c hc).1
      unfold parseNumber
      simp only [List.cons_append, List.headD_cons, List.tail_cons, if_true]
      have htake2 : takeDigits (d0 :: (ds0 ++ rest)) = (d0 :: ds0, rest) := htake
      rw [htake2]
      split
      · next heq => simp at heq
      · next heq => simp at heq
      rename_i ds1 rest1 hf1 hf2 heq
      injection heq with e1 e2
      subst e1
      subst e2
      have hlz : ¬((d0 :: ds0).length > 1 ∧ (d0 :: ds0).headD '0' = '0') := by
        rintro ⟨hlen, hhd⟩
        simp at hhd
        have h0 := hzero (by simp [hhd])
        omega
      rw [if_neg hlz]
      have hvi : -(digitsVal (d0 :: ds0) : Int) = i := by
        rw [hval]
        omega
      cases rest with
      | nil => simp [hvi]
      | cons c r =>
        obtain ⟨hc1, hc2, hc3, hc4⟩ := hrest c rfl
        split
        · next heq => injection heq with h1 _; exact absurd h1 hc2
        · next heq => injection heq with h1 _; exact absurd h1 hc3
        · next heq => injection heq with h1 _; exact absurd h1 hc4
        · simp [hvi]
  · rw [if_neg hi]
    rw [parseNumber_natToDec i.natAbs rest hrest]
    have : ((i.natAbs : Nat) : Int) = i := by omega
    rw [this]

theorem parseStringBody_escape (s rest : Str) :
    parseStringBody (escapeString s ++ '"' :: rest) = .ok (s, rest) := by
  induction s with
  | nil => rfl
  | cons c t ih =>
    have hsplit : escapeString (c :: t) ++ '"' :: rest =
        escapeChar c ++ (escapeString t ++ '"' :: rest) := by
      simp [escapeString]
    rw [hsplit]
    unfold escapeChar
    by_cases h1 : c = '"'
    · subst h1
      simp [parseStringBody, ih]
    rw [if_neg h1]
    by_cases h2 : c = '\\'
    · subst h2
      simp [parseStringBody, ih]
    rw [if_neg h2]
    by_cases h3 : c = '\n'
    · subst h3
      simp [parseStringBody, ih]
    rw [if_neg h3]
    by_cases h4 : c = '\r'
    · subst h4
      simp [parseStringBody, ih]
    rw [if_neg h4]
    by_cases h5 : c = '\t'
    · subst h5
      simp [parseStringBody, ih]
    rw [if_neg h5]
    by_cases h6 : c.toNat < 0x20
    · rw [if_pos h6]
      simp only [List.cons_append, List.nil_append]
      have hc : c = Char.ofNat c.toNat := (Char.ofNat_toNat c).symm
      generalize hcn : c.toNat = n at h6 hc ⊢
      subst hc
      interval_cases n <;>
        first
          | exact absurd (by decide) h3
          | exact absurd (by decide) h4
          | exact absurd (by decide) h5
          | (simp [parseStringBody, ih] <;> rfl)
    rw [if_neg h6]
    by_cases h7 : c = '<' ∨ c = '>' ∨ c = '&'
    · have h7b : (c = '<' || c = '>' || c = '&') = true := by
        rcases h7 with h | h | h <;> simp [h]
      rw [if_pos h7b]
      rcases h7 with h | h | h <;> subst h <;> simp [parseStringBody, ih] <;> rfl
    · have h7b : (c = '<' || c = '>' || c = '&') = false := by
        simp only [Bool.or_eq_false_iff, decide_eq_false_iff_not]
        refine ⟨⟨?_, ?_⟩, ?_⟩ <;> intro h <;> exact h7 (by simp [h])
      rw [if_neg (by simp [h7b])]
      by_cases h8 : c.toNat = 0x2028 ∨ c.toNat = 0x2029
      · have h8b : (c.toNat = 0x2028 || c.toNat = 0x2029) = true := by
          rcases h8 with h | h <;> simp [h]
        rw [if_pos h8b]
        have hc : c = Char.ofNat c.toNat := (Char.ofNat_toNat c).symm
        rcases h8 with h | h <;>
          rw [show c = Char.ofNat c.toNat from hc, h] <;>
          simp [parseStringBody, ih] <;> rfl
      · have h8b : (c.toNat = 0x2028 || c.toNat = 0x2029) = false := by
          simp only [Bool.or_eq_false_iff, decide_eq_false_iff_not]
          exact ⟨fun h => h8 (Or.inl h), fun h => h8 (Or.inr h)⟩
        rw [if_neg (by simp [h8b])]
        simp only [List.cons_append, List.nil_append]
        rw [parseStringBody.eq_def]
        split
        · next heq => exact absurd heq (List.cons_ne_nil _ _)
        · next r heq =>
          injection heq with e1 _
          exact absurd e1 h1
        · next esc heq =>
          injection heq with e1 _
          exact absurd e1 h2
        · next c2 r2 heq =>
          injection heq with e1 e2
          subst e1
          subst e2
          rw [if_neg h6]
          rw [ih]

theorem isDigitCh_ne (c x : Char) (h : isDigitCh c = true) (hx : isDigitCh x = false) :
    c ≠ x := by
  intro e
  rw [e] at h
  rw [h] at hx
  exact Bool.noConfusion hx

theorem skipWS_not_space (c : Char) (r : Str) (h : jsonIsSpace c = false) :
    skipWS (c :: r) = c :: r := by
  simp [skipWS, h]

theorem isDigitCh_not_space (c : Char) (h : isDigitCh c = true) :
    jsonIsSpace c = false := by
  have h1 : c ≠ ' ' := isDigitCh_ne c ' ' h (by decide)
  have h2 : c ≠ '\t' := isDigitCh_ne c '\t' h (by decide)
  have h3 : c ≠ '\r' := isDigitCh_ne c '\r' h (by decide)
  have h4 : c ≠ '\n' := isDigitCh_ne c '\n' h (by decide)
  simp [jsonIsSpace, h1, h2, h3, h4]

theorem parseF_val_flat (v : Json) (h : FlatVal v) (rest : Str) (f : Nat)
    (hrest : NumStop rest) :
    parseF (f + 1) .val (serializeJson v ++ rest) = .ok (v, rest) := by
  cases h with
  | str s =>
    have hser : serializeJson (.str s) ++ rest = '"' :: (escapeString s ++ '"' :: rest) := by
      show ('"' :: (escapeString s ++ ['"'])) ++ rest = _
      simp
    rw [hser]
    simp [parseF, parseStringBody_escape]
  | emptyObj =>
    have hser : serializeJson (.obj .nil) ++ rest = '{' :: '}' :: rest := rfl
    rw [hser]
    simp only [parseF]
    rw [skipWS_not_space '}' rest (by decide)]
    rfl
  | num n =>
    have hser : serializeJson (.num n) ++ rest = intToDec n ++ rest := rfl
    rw [hser]
    unfold intToDec
    by_cases hn : n < 0
    · rw [if_pos hn]
      simp only [List.cons_append]
      have : parseF (f + 1) .val ('-' :: (natToDec n.natAbs ++ rest)) =
          parseNumber ('-' :: (natToDec n.natAbs ++ rest)) := by
        simp [parseF]
      rw [this]
      have h2 : ('-' :: (natToDec n.natAbs ++ rest) : Str) = intToDec n ++ rest := by
        unfold intToDec
        rw [if_pos hn]
        simp
      rw [h2, parseNumber_intToDec n rest hrest]
    · rw [if_neg hn]
      obtain ⟨hne, hdig, hval, hzero⟩ := natToDec_spec n.natAbs
      rcases hnd : natToDec n.natAbs with _ | ⟨d, ds⟩
      · exact absurd hnd hne
      · have hd : isDigitCh d = true := by
          rw [hnd] at hdig
          exact hdig d (by simp)
        simp only [List.cons_append]
        rw [parseF.eq_def]
        split
        · split
          · next heq => exact absurd heq (List.cons_ne_nil _ _)
          · next r heq =>
            injection heq with e1 _
            exact absurd e1 (isDigitCh_ne d '{' hd (by decide))
          · next r heq =>
            injection heq with e1 _
            exact absurd e1 (isDigitCh_ne d '[' hd (by decide))
          · next r heq =>
            injection heq with e1 _
            exact absurd e1 (isDigitCh_ne d '"' hd (by decide))
          · next c2 r2 heq =>
            injection heq with e1 e2
            subst e1
            subst e2
            rw [if_neg (isDigitCh_ne d 't' hd (by decide)),
                if_neg (isDigitCh_ne d 'f' hd (by decide)),
                if_neg (isDigitCh_ne d 'n' hd (by decide))]
            rw [if_pos (by simp [hd])]
            have h2 : (d :: (ds ++ rest) : Str) = intToDec n ++ rest := by
              unfold intToDec
              rw [if_neg hn, hnd]
              simp
            rw [h2, parseNumber_intToDec n rest hrest]
        · rename_i heq
          exact PMode.noConfusion heq
        · rename_i heq
          exact PMode.noConfusion heq

theorem appendField_eq_appendFs : ∀ (acc : JsonFields) (k : Str) (v : Json),
    appendField acc k v = appendFs acc (.cons k v .nil)
  | .nil, _, _ => rfl
  | .cons k2 v2 t, k, v => by
    show JsonFields.cons k2 v2 (appendField t k v) =
      JsonFields.cons k2 v2 (appendFs t (.cons k v .nil))
    rw [appendField_eq_appendFs t k v]

theorem appendFs_assoc : ∀ (a b c : JsonFields),
    appendFs (appendFs a b) c = appendFs a (appendFs b c)
  | .nil, _, _ => rfl
  | .cons k v t, b, c => by
    show JsonFields.cons k v (appendFs (appendFs t b) c) =
      JsonFields.cons k v (appendFs t (appendFs b c))
    rw [appendFs_assoc t b c]

theorem serializeJson_flat_head (v : Json) (h : FlatVal v) :
    ∃ c cs, serializeJson v = c :: cs ∧ jsonIsSpace c = false := by
  cases h with
  | str s => exact ⟨'"', _, rfl, by decide⟩
  | emptyObj => exact ⟨'{', _, rfl, by decide⟩
  | num n =>
    show ∃ c cs, intToDec n = c :: cs ∧ jsonIsSpace c = false
    unfold intToDec
    by_cases hn : n < 0
    · rw [if_pos hn]
      exact ⟨'-', _, rfl, by decide⟩
    · rw [if_neg hn]
      obtain ⟨hne, hdig, _, _⟩ := natToDec_spec n.natAbs
      rcases hnd : natToDec n.natAbs with _ | ⟨d, ds⟩
      · exact absurd hnd hne
      · refine ⟨d, ds, rfl, ?_⟩
        rw [hnd] at hdig
        exact isDigitCh_not_space d (hdig d (by simp))

theorem numStop_brace (tail : Str) : NumStop ('}' :: tail) := by
  intro c hc
  simp at hc
  subst hc
  exact ⟨by decide, by decide, by decide, by decide⟩

theorem numStop_comma (tail : Str) : NumStop (',' :: tail) := by
  intro c hc
  simp at hc
  subst hc
  exact ⟨by decide, by decide, by decide, by decide⟩

theorem parseF_members_flat (fs : List (Str × Json)) :
    ∀ (k : Str) (v : Json) (acc : JsonFields) (tail : Str) (g : Nat),
    FlatVal v → (∀ p ∈ fs, FlatVal p.2) → fs.length + 1 ≤ g →
    parseF (g + 1) (.members acc)
      (serializeFields (jfields ((k, v) :: fs)) ++ '}' :: tail) =
      .ok (.obj (appendFs acc (jfields ((k, v) :: fs))), tail) := by
  induction fs with
  | nil =>
    intro k v acc tail g hv _ hg
    obtain ⟨g2, rfl⟩ : ∃ g2, g = g2 + 1 := ⟨g - 1, by omega⟩
    have hser : serializeFields (jfields [(k, v)]) ++ '}' :: tail =
        '"' :: (escapeString k ++ '"' :: (':' :: (serializeJson v ++ '}' :: tail))) := by
      rw [show jfields [(k, v)] = JsonFields.cons k v .nil from rfl, serializeFields_cons]
      simp [memberChunk]
    rw [hser]
    simp only [parseF]
    rw [parseStringBody_escape k (':' :: (serializeJson v ++ '}' :: tail))]
    simp only []
    rw [skipWS_not_space ':' _ (by decide)]
    simp only []
    obtain ⟨c0, cs0, hser0, hsp0⟩ := serializeJson_flat_head v hv
    have hskip : skipWS (serializeJson v ++ '}' :: tail) = serializeJson v ++ '}' :: tail := by
      rw [hser0]
      exact skipWS_not_space c0 _ hsp0
    rw [hskip]
    rw [parseF_val_flat v hv ('}' :: tail) g2 (numStop_brace tail)]
    simp only []
    rw [skipWS_not_space '}' tail (by decide)]
    simp only []
    rw [appendField_eq_appendFs]
    rfl
  | cons p t ih =>
    intro k v acc tail g hv hflat hg
    obtain ⟨g2, rfl⟩ : ∃ g2, g = g2 + 1 := ⟨g - 1, by omega⟩
    rcases p with ⟨k2, v2⟩
    have hser : serializeFields (jfields ((k, v) :: (k2, v2) :: t)) ++ '}' :: tail =
        '"' :: (escapeString k ++ '"' :: (':' :: (serializeJson v ++
          ',' :: (serializeFields (jfields ((k2, v2) :: t)) ++ '}' :: tail)))) := by
      rw [show jfields ((k, v) :: (k2, v2) :: t) =
            JsonFields.cons k v (jfields ((k2, v2) :: t)) from rfl]
      rw [show jfields ((k2, v2) :: t) = JsonFields.cons k2 v2 (jfields t) from rfl]
      rw [serializeFields_cons]
      simp [memberChunk]
    rw [hser]
    simp only [parseF]
    rw [parseStringBody_escape k (':' :: (serializeJson v ++
      ',' :: (serializeFields (jfields ((k2, v2) :: t)) ++ '}' :: tail)))]
    simp only []
    rw [skipWS_not_space ':' _ (by decide)]
    simp only []
    obtain ⟨c0, cs0, hser0, hsp0⟩ := serializeJson_flat_head v hv
    have hskip : skipWS (serializeJson v ++
        ',' :: (serializeFields (jfields ((k2, v2) :: t)) ++ '}' :: tail)) =
        serializeJson v ++ ',' :: (serializeFields (jfields ((k2, v2) :: t)) ++ '}' :: tail) := by
      rw [hser0]
      exact skipWS_not_space c0 _ hsp0
    rw [hskip]
    rw [parseF_val_flat v hv _ g2 (numStop_comma _)]
    simp only []
    rw [skipWS_not_space ',' _ (by decide)]
    simp only []
    have hskip2 : skipWS (serializeFields (jfields ((k2, v2) :: t)) ++ '}' :: tail) =
        serializeFields (jfields ((k2, v2) :: t)) ++ '}' :: tail := by
      rw [show jfields ((k2, v2) :: t) = JsonFields.cons k2 v2 (jfields t) from rfl,
          serializeFields_cons]
      simp only [memberChunk, List.cons_append]
      exact skipWS_not_space '"' _ (by decide)
    rw [hskip2]
    rw [ih k2 v2 (appendField acc k v) tail g2 (hflat (k2, v2) (by simp))
      (fun p hp => hflat p (by simp [hp])) (by simp at hg; omega)]
    rw [appendField_eq_appendFs, appendFs_assoc]
    rfl

theorem serializeFields_cons_head (k : Str) (v : Json) (T : JsonFields) :
    ∃ cs, serializeFields (JsonFields.cons k v T) = '"' :: cs := by
  rw [serializeFields_cons]
  exact ⟨_, rfl⟩

theorem length_le_serializeFields (k : Str) (v : Json) :
    ∀ t : List (Str × Json),
      t.length ≤ (serializeFields (jfields ((k, v) :: t))).length := by
  intro t
  induction t generalizing k v with
  | nil => simp
  | cons p t2 ih =>
    rcases p with ⟨k2, v2⟩
    rw [show jfields ((k, v) :: (k2, v2) :: t2) =
          JsonFields.cons k v (jfields ((k2, v2) :: t2)) from rfl]
    rw [serializeFields_cons]
    rw [show jfields ((k2, v2) :: t2) = JsonFields.cons k2 v2 (jfields t2) from rfl]
    simp only [List.length_cons, List.length_append]
    have h2 := ih k2 v2
    rw [show jfields ((k2, v2) :: t2) = JsonFields.cons k2 v2 (jfields t2) from rfl] at h2
    simp only [List.length_cons] at *
    omega

theorem jsonUnmarshal_flatobj (k : Str) (v : Json) (t : List (Str × Json))
    (hv : FlatVal v) (hflat : ∀ p ∈ t, FlatVal p.2) :
    jsonUnmarshal (serializeJson (.obj (jfields ((k, v) :: t)))) =
      .ok (.obj (jfields ((k, v) :: t))) := by
  have hs : serializeJson (.obj (jfields ((k, v) :: t))) =
      '{' :: (serializeFields (jfields ((k, v) :: t)) ++ ['}']) := rfl
  obtain ⟨cs1, hcs1⟩ := serializeFields_cons_head k v (jfields t)
  have hcs1b : serializeFields (jfields ((k, v) :: t)) = '"' :: cs1 := hcs1
  unfold jsonUnmarshal
  rw [hs]
  rw [skipWS_not_space '{' _ (by decide)]
  have hflen : ('{' :: (serializeFields (jfields ((k, v) :: t)) ++ ['}']) : Str).length + 1 =
      (((serializeFields (jfields ((k, v) :: t))).length + 1) + 1) + 1 := by
    simp
  rw [hflen]
  simp only [parseF]
  rw [hcs1b]
  simp only [List.cons_append]
  rw [skipWS_not_space '"' _ (by decide)]
  have hlen : t.length + 1 ≤ (serializeFields (jfields ((k, v) :: t))).length + 1 := by
    have h1 := length_le_serializeFields k v t
    omega
  show (match parseF (('"' :: cs1 : Str).length + 2) (PMode.members JsonFields.nil)
      ('"' :: (cs1 ++ ['}'])) with
    | Except.error e => Except.error e
    | Except.ok (v, rest) =>
      match skipWS rest with
      | [] => Except.ok v
      | c :: _ => Except.error (invalidCharErr c "after top-level value")) =
    Except.ok (Json.obj (jfields ((k, v) :: t)))
  rw [show ('"' :: (cs1 ++ ['}']) : Str) = serializeFields (jfields ((k, v) :: t)) ++ '}' :: []
    from by rw [hcs1b]; simp]
  rw [show (('"' :: cs1 : Str).length + 2) =
      ((serializeFields (jfields ((k, v) :: t))).length + 1) + 1 from by rw [hcs1b]]
  rw [parseF_members_flat t k v .nil [] ((serializeFields (jfields ((k, v) :: t))).length + 1)
    hv hflat hlen]
  rfl

theorem decodeFields_code (st : response.DecState) (n : Int) (t : JsonFields)
    (h1 : response.int32Min ≤ n) (h2 : n ≤ response.int32Max) :
    response.decodeFields st (.cons (strOf "code") (.num n) t) =
      response.decodeFields { st with e := { st.e with Code := n } } t := by
  show response.decodeFields (response.decodeField st (strOf "code") (.num n)) t = _
  congr 1
  show (if response.int32Min ≤ n ∧ n ≤ response.int32Max then
          ({ st with e := { st.e with Code := n } } : response.DecState)
        else response.setDecErr st (strOf "json: cannot unmarshal number: overflows int32")) = _
  rw [if_pos ⟨h1, h2⟩]

theorem decodeFields_service_name (st : response.DecState) (x : Str) (t : JsonFields) :
    response.decodeFields st (.cons (strOf "service_name") (.str x) t) =
      response.decodeFields { st with e := { st.e with ServiceName := x } } t := rfl

theorem decodeFields_message (st : response.DecState) (x : Str) (t : JsonFields) :
    response.decodeFields st (.cons (strOf "message") (.str x) t) =
      response.decodeFields { st with e := { st.e with Message := x } } t := rfl

theorem decodeFields_destination (st : response.DecState) (x : Str) (t : JsonFields) :
    response.decodeFields st (.cons (strOf "destination") (.str x) t) =
      response.decodeFields { st with e := { st.e with Destination := x } } t := rfl

theorem decodeFields_kind (st : response.DecState) (x : Str) (t : JsonFields) :
    response.decodeFields st (.cons (strOf "kind") (.str x) t) =
      response.decodeFields { st with e := { st.e with Kind := x } } t := rfl

theorem decodeFields_details_emptyobj (st : response.DecState) (t : JsonFields) :
    response.decodeFields st (.cons (strOf "details") (.obj .nil) t) =
      response.decodeFields
        { st with e := { st.e with SublevelError := some (.obj .nil) } } t := rfl

theorem decodeFields_nil (st : response.DecState) :
    response.decodeFields st .nil = st := rfl

theorem decode_errFieldList (x : goerrors.Error)
    (h1 : response.int32Min ≤ x.Code) (h2 : x.Code ≤ response.int32Max) :
    response.decodeFields {} (jfields (goerrors.errFieldList x)) =
      { e := { Code := x.Code, ServiceName := x.ServiceName, Message := x.Message,
               Destination := x.Destination, Kind := x.Kind,
               SublevelError :=
                 match x.SublevelError with
                 | none => none
                 | some _ => some (.obj .nil) },
        firstErr := none } := by
  unfold goerrors.errFieldList
  by_cases hsn : x.ServiceName = [] <;> by_cases hm : x.Message = [] <;>
    by_cases hd : x.Destination = [] <;> rcases hdet : x.SublevelError with _ | g <;>
    (try rcases g with ⟨gm⟩) <;>
    simp [hsn, hm, hd, hdet, jfields, goerrors.marshalGoErr,
      decodeFields_code _ _ _ h1 h2, decodeFields_service_name, decodeFields_message,
      decodeFields_destination, decodeFields_kind, decodeFields_details_emptyobj,
      decodeFields_nil]

theorem errorString_eq_serialize (e : goerrors.Error) (h : e.hideDetails = false) :
    goerrors.Error.String e = serializeJson (goerrors.errorFieldsJson
      { Code := e.Code, ServiceName := e.ServiceName, Message := e.Message,
        Destination := e.Destination, Kind := e.Kind,
        SublevelError := e.SublevelError }) := by
  unfold goerrors.Error.String
  simp [h]

theorem errFieldList_head_flat (x : goerrors.Error) :
    ∃ t, goerrors.errFieldList x = (strOf "code", Json.num x.Code) :: t ∧
      (∀ p ∈ t, FlatVal p.2) := by
  refine ⟨((((if x.ServiceName = [] then []
        else [(strOf "service_name", Json.str x.ServiceName)]) ++
      (if x.Message = [] then [] else [(strOf "message", Json.str x.Message)])) ++
      (if x.Destination = [] then []
        else [(strOf "destination", Json.str x.Destination)])) ++
      [(strOf "kind", Json.str x.Kind)]) ++
      (match x.SublevelError with
       | none => []
       | some g => [(strOf "details", goerrors.marshalGoErr g)]), ?_, ?_⟩
  · unfold goerrors.errFieldList
    simp [List.append_assoc]
  · intro p hp
    simp only [List.mem_append] at hp
    rcases hp with ((((hp | hp) | hp) | hp) | hp)
    · split at hp
      · exact absurd hp (List.not_mem_nil p)
      · simp at hp
        rw [hp]
        exact FlatVal.str _
    · split at hp
      · exact absurd hp (List.not_mem_nil p)
      · simp at hp
        rw [hp]
        exact FlatVal.str _
    · split at hp
      · exact absurd hp (List.not_mem_nil p)
      · simp at hp
        rw [hp]
        exact FlatVal.str _
    · simp at hp
      rw [hp]
      exact FlatVal.str _
    · rcases hdet : x.SublevelError with _ | g
      · rw [hdet] at hp
        exact absurd hp (List.not_mem_nil p)
      · rw [hdet] at hp
        simp at hp
        rw [hp]
        rcases g with ⟨gm⟩
        exact FlatVal.emptyObj

/-- C6 counterexample: two distinct records that differ only in the
message of their plain-error detail render to the same string, so no
decoder can recover the detail from the rendered form; the round-trip of
the claim fails at the detail field. -/
theorem c6_counterexample :
    goerrors.Error.String
      { Code := 1, ServiceName := strOf "svc", Message := strOf "m",
        Kind := goerrors.KindInternal,
        SublevelError := some (.errorString (strOf "x")), hideDetails := false } =
    goerrors.Error.String
      { Code := 1, ServiceName := strOf "svc", Message := strOf "m",
        Kind := goerrors.KindInternal,
        SublevelError := some (.errorString (strOf "y")), hideDetails := false } ∧
    ({ Code := 1, ServiceName := strOf "svc", Message := strOf "m",
       Kind := goerrors.KindInternal,
       SublevelError := some (.errorString (strOf "x")),
       hideDetails := false } : goerrors.Error) ≠
    { Code := 1, ServiceName := strOf "svc", Message := strOf "m",
      Kind := goerrors.KindInternal,
      SublevelError := some (.errorString (strOf "y")), hideDetails := false } := by
  constructor
  · decide
  · decide

/-- C6 amended: with hideDetails unset and an in-range int32 code, the
decoder recovers the code, service name, message, destination and kind of
every rendered record exactly, and recovers the detail only in the
degenerate sense: an absent detail decodes as absent, while a present
plain-error detail decodes as the empty JSON object (its content is
lost at rendering time). -/
theorem c6_roundtrip_scalars (e : goerrors.Error)
    (h : e.hideDetails = false)
    (hc1 : response.int32Min ≤ e.Code) (hc2 : e.Code ≤ response.int32Max)
    (_hkind : e.Kind ∈ response.knownServiceErrors) :
    ∃ s : response.serviceError,
      response.serviceErrorFromString (goerrors.Error.String e) = .ok s ∧
      s.Code = e.Code ∧ s.ServiceName = e.ServiceName ∧ s.Message = e.Message ∧
      s.Destination = e.Destination ∧ s.Kind = e.Kind ∧
      (e.SublevelError = none → s.SublevelError = none) ∧
      (∀ g, e.SublevelError = some g → s.SublevelError = some (.obj .nil)) := by
  have hstr := errorString_eq_serialize e h
  obtain ⟨t, hhead, hflat⟩ := errFieldList_head_flat
    { Code := e.Code, ServiceName := e.ServiceName, Message := e.Message,
      Destination := e.Destination, Kind := e.Kind, SublevelError := e.SublevelError }
  have hj : jsonUnmarshal (goerrors.Error.String e) =
      .ok (.obj (jfields (goerrors.errFieldList
        { Code := e.Code, ServiceName := e.ServiceName, Message := e.Message,
          Destination := e.Destination, Kind := e.Kind,
          SublevelError := e.SublevelError }))) := by
    rw [hstr]
    unfold goerrors.errorFieldsJson
    rw [hhead]
    exact jsonUnmarshal_flatobj _ _ t (FlatVal.num _) hflat
  have hdec := decode_errFieldList
    { Code := e.Code, ServiceName := e.ServiceName, Message := e.Message,
      Destination := e.Destination, Kind := e.Kind, SublevelError := e.SublevelError }
    hc1 hc2
  unfold response.serviceErrorFromString
  rw [hj]
  simp only []
  rw [hdec]
  refine ⟨_, rfl, rfl, rfl, rfl, rfl, rfl, ?_, ?_⟩
  · intro hnone
    simp only [hnone]
  · intro g hg
    simp only [hg]

/-- Witness for c6_roundtrip_scalars at a concrete record of each feature:
non-zero code, all string fields set, a known kind and a present detail. -/
theorem c6_roundtrip_scalars_witness :
    c6Sample.hideDetails = false ∧
    response.int32Min ≤ c6Sample.Code ∧ c6Sample.Code ≤ response.int32Max ∧
    c6Sample.Kind ∈ response.knownServiceErrors ∧
    (∃ s : response.serviceError,
      response.serviceErrorFromString (goerrors.Error.String c6Sample) = .ok s ∧
      s.Code = c6Sample.Code ∧ s.ServiceName = c6Sample.ServiceName ∧
      s.Message = c6Sample.Message ∧ s.Destination = c6Sample.Destination ∧
      s.Kind = c6Sample.Kind ∧
      (c6Sample.SublevelError = none → s.SublevelError = none) ∧
      (∀ g, c6Sample.SublevelError = some g → s.SublevelError = some (.obj .nil))) :=
  ⟨rfl, by decide, by decide, by decide,
   c6_roundtrip_scalars c6Sample rfl (by decide) (by decide) (by decide)⟩

